import Mathlib

/-!
# Verification of the Agentia world core

A shallow embedding of the world-state container and interaction pipeline of
the Agentia simulation (`world.py`, `world_engine.py`, `agentia/schemas.py`).
Python dicts are modelled as insertion-ordered association lists with
string keys; Python lists as Lean lists; simulation time as minutes (Int)
since the simulation start; raised exceptions as `Except` errors.
-/

namespace Agentia

/-- A primitive Python value stored inside an object's hidden internal state. -/
inductive PyPrim where
  | str (v : String)
  | int (v : Int)
  | bool (v : Bool)
deriving DecidableEq, Repr

/-- A Python value appearing as a keyword-argument value in a deferred effect:
either a primitive or a flat dict of primitives (used for `internal_state`). -/
inductive PyVal where
  | str (v : String)
  | int (v : Int)
  | bool (v : Bool)
  | dict (entries : List (String × PyPrim))
deriving DecidableEq, Repr

/-- An insertion-ordered Python dict with string keys. -/
abbrev Dict (α : Type) := List (String × α)

/-- `d[k]` lookup (first entry wins; Python dicts have unique keys). -/
def dlookup {α : Type} : Dict α → String → Option α
  | [], _ => none
  | (k, v) :: rest, key => if k = key then some v else dlookup rest key

/-- `k in d`. -/
def dcontains {α : Type} (d : Dict α) (k : String) : Bool :=
  (dlookup d k).isSome

/-- `d[k] = v`: overwrite in place if the key exists, otherwise append. -/
def dinsert {α : Type} : Dict α → String → α → Dict α
  | [], k, v => [(k, v)]
  | (k', v') :: rest, k, v =>
      if k' = k then (k', v) :: rest else (k', v') :: dinsert rest k v

/-- In-place mutation of the value stored under `k` (no-op if absent). -/
def dmodify {α : Type} : Dict α → String → (α → α) → Dict α
  | [], _, _ => []
  | (k', v') :: rest, k, f =>
      if k' = k then (k', f v') :: rest else (k', v') :: dmodify rest k f

/-- `del d[k]` / `d.pop(k, default)` key removal. -/
def dremove {α : Type} : Dict α → String → Dict α
  | [], _ => []
  | (k', v') :: rest, k => if k' = k then rest else (k', v') :: dremove rest k

/-- Python `target.update(patch)`: merge `patch` into `target` key by key. -/
def dictUpdate (target patch : Dict PyPrim) : Dict PyPrim :=
  patch.foldl (fun acc p => dinsert acc p.1 p.2) target

/-- A world object (`agentia/schemas.py` `WorldObject`): visible `id`, `name`,
`location_id`, `state`, `description`; hidden `mechanics` and `internal_state`. -/
structure WorldObject where
  id : String
  name : String
  location_id : String
  state : String
  description : String
  mechanics : String
  internal_state : Dict PyPrim
deriving DecidableEq, Repr

/-- A location (`agentia/schemas.py` `Location`). -/
structure Location where
  id : String
  name : String
  description : String
  connected_to : List String
  objects : List String
  agents_present : List String
deriving DecidableEq, Repr

/-- A staged deferred effect: the `{"type": ..., "args": ...}` record built by
`WorldEngine._dispatch_tool` and replayed by `World._execute_pending_effect`. -/
structure Effect where
  type : String
  args : Dict PyVal
deriving DecidableEq, Repr

/-- An entry of `World.agent_locks` (`World.set_agent_lock`). -/
structure AgentLock where
  until_time : Int
  reason : String
  completion_message : String
  pending_effects : List Effect
deriving DecidableEq, Repr

/-- The mutable world state (`World.__init__`).  `sim_time` counts minutes;
the undirected `nx.Graph` is kept as its edge list. -/
structure World where
  locations : Dict Location
  objects : Dict WorldObject
  edges : List (String × String)
  pending_events : Dict (List String)
  agent_locks : Dict AgentLock
  agent_locations : Dict String
  sim_time : Int
deriving DecidableEq, Repr

/-- `nx.Graph.has_edge` for an undirected edge list. -/
def hasEdge (w : World) (a b : String) : Bool :=
  w.edges.any fun e => (e.1 = a && e.2 = b) || (e.1 = b && e.2 = a)

/-- Replace the location stored under `id` by `f` of it (models Python mutating
the `Location` object found in `self.locations`). -/
def modifyLocation (w : World) (id : String) (f : Location → Location) : World :=
  { w with locations := dmodify w.locations id f }

/-- Replace the object stored under `id` by `f` of it. -/
def modifyObject (w : World) (id : String) (f : WorldObject → WorldObject) : World :=
  { w with objects := dmodify w.objects id f }

/-- `World.get_location`. -/
def get_location (w : World) (location_id : String) : Option Location :=
  dlookup w.locations location_id

/-- `World.get_object`. -/
def get_object (w : World) (object_id : String) : Option WorldObject :=
  dlookup w.objects object_id

/-- `World.place_agent`. -/
def place_agent (w : World) (agent_name location_id : String) : World × Bool :=
  match dlookup w.locations location_id with
  | none => (w, false)
  | some loc =>
      let w :=
        if agent_name ∈ loc.agents_present then w
        else modifyLocation w location_id
          (fun l => { l with agents_present := l.agents_present ++ [agent_name] })
      ({ w with agent_locations := dinsert w.agent_locations agent_name location_id }, true)

/-- `World.get_agent_location`. -/
def get_agent_location (w : World) (agent_name : String) : Option String :=
  dlookup w.agent_locations agent_name

/-- `World.move_agent`: fails without mutation when the agent has no current
location or no graph edge joins the two locations; otherwise removes the agent
from the source presence list (first occurrence), and if the destination is a
loaded location, appends the agent there and re-points `agent_locations`. -/
def move_agent (w : World) (agent_name to_loc : String) : World × Bool :=
  match dlookup w.agent_locations agent_name with
  | none => (w, false)
  | some from_loc =>
      if hasEdge w from_loc to_loc = false then (w, false)
      else
        let w1 :=
          match dlookup w.locations from_loc with
          | some lf =>
              if agent_name ∈ lf.agents_present then
                modifyLocation w from_loc
                  (fun l => { l with agents_present := l.agents_present.erase agent_name })
              else w
          | none => w
        match dlookup w1.locations to_loc with
        | some _ =>
            let w2 := modifyLocation w1 to_loc
              (fun l => { l with agents_present := l.agents_present ++ [agent_name] })
            ({ w2 with agent_locations := dinsert w2.agent_locations agent_name to_loc }, true)
        | none => (w1, false)

/-- `World.get_connected_locations`. -/
def get_connected_locations (w : World) (location_id : String) : List String :=
  match dlookup w.locations location_id with
  | some loc => loc.connected_to
  | none => []

/-- `World.get_agent_inventory`: formatted names of the objects whose
`location_id` is the agent's name, in object-dict insertion order. -/
def get_agent_inventory (w : World) (agent_name : String) : List String :=
  w.objects.filterMap fun p =>
    if p.2.location_id = agent_name then
      some (p.2.name ++ " (id: " ++ p.2.id ++ ")")
    else none

/-- `World.create_object`. -/
def create_object (w : World) (object_id name location_id state description
    mechanics : String) (internal_state : Dict PyPrim) : World × Bool :=
  if dcontains w.objects object_id then (w, false)
  else
    let obj : WorldObject :=
      { id := object_id, name := name, location_id := location_id, state := state,
        description := description, mechanics := mechanics, internal_state := internal_state }
    let w := { w with objects := dinsert w.objects object_id obj }
    let w :=
      if location_id ≠ "" && dcontains w.locations location_id then
        modifyLocation w location_id (fun l => { l with objects := l.objects ++ [object_id] })
      else w
    (w, true)

/-- `World.destroy_object`. -/
def destroy_object (w : World) (object_id : String) : World × Bool :=
  match dlookup w.objects object_id with
  | none => (w, false)
  | some obj =>
      let w := { w with objects := dremove w.objects object_id }
      let w :=
        if obj.location_id ≠ "" && dcontains w.locations obj.location_id then
          modifyLocation w obj.location_id
            (fun l =>
              if object_id ∈ l.objects then { l with objects := l.objects.erase object_id }
              else l)
        else w
      (w, true)

/-- `World.transfer_object`: removes the object id from `from_id`'s list when
`from_id` is a loaded location, unconditionally re-points `location_id` to
`to_id`, and appends to `to_id`'s list when `to_id` is a loaded location. -/
def transfer_object (w : World) (object_id from_id to_id : String) : World × Bool :=
  match dlookup w.objects object_id with
  | none => (w, false)
  | some _ =>
      let w :=
        if from_id ≠ "" && dcontains w.locations from_id then
          modifyLocation w from_id
            (fun l =>
              if object_id ∈ l.objects then { l with objects := l.objects.erase object_id }
              else l)
        else w
      let w := modifyObject w object_id (fun o => { o with location_id := to_id })
      let w :=
        if dcontains w.locations to_id then
          modifyLocation w to_id (fun l => { l with objects := l.objects ++ [object_id] })
        else w
      (w, true)

/-- `World.update_object`: only the provided (non-`None`) fields are written;
`internal_state` is merged into the existing hidden state, not replaced. -/
def update_object (w : World) (object_id : String) (state description : Option String)
    (internal_state : Option (Dict PyPrim)) : World × Bool :=
  match dlookup w.objects object_id with
  | none => (w, false)
  | some _ =>
      let w :=
        match state with
        | some s => modifyObject w object_id (fun o => { o with state := s })
        | none => w
      let w :=
        match description with
        | some d => modifyObject w object_id (fun o => { o with description := d })
        | none => w
      let w :=
        match internal_state with
        | some patch =>
            modifyObject w object_id
              (fun o => { o with internal_state := dictUpdate o.internal_state patch })
        | none => w
      (w, true)

/-- Append `message` to `agent`'s pending-events queue (the body of the loop in
`World.broadcast_to_location`). -/
def enqueueEvent (w : World) (agent message : String) : World :=
  match dlookup w.pending_events agent with
  | some _ =>
      { w with pending_events := dmodify w.pending_events agent (fun q => q ++ [message]) }
  | none =>
      { w with pending_events := w.pending_events ++ [(agent, [message])] }

/-- The `for agent_name in loc.agents_present` loop of
`World.broadcast_to_location`. -/
def broadcastList (w : World) : List String → String → Option String → World
  | [], _, _ => w
  | a :: rest, message, exclude =>
      let keep : Bool := match exclude with | some e => a ≠ e | none => true
      if keep then broadcastList (enqueueEvent w a message) rest message exclude
      else broadcastList w rest message exclude

/-- `World.broadcast_to_location`. -/
def broadcast_to_location (w : World) (location_id message : String)
    (exclude_agent : Option String) : World :=
  match dlookup w.locations location_id with
  | none => w
  | some loc => broadcastList w loc.agents_present message exclude_agent

/-- `World.get_pending_events`: pop-and-clear the agent's queue. -/
def get_pending_events (w : World) (agent_name : String) : World × List String :=
  ({ w with pending_events := dremove w.pending_events agent_name },
   (dlookup w.pending_events agent_name).getD [])

/-- Weekday names for `strftime("%A")`; day 0 of the simulation clock is
Monday 2024-01-01 (`SIMULATION_START_TIME` is 8:00 that day). -/
def weekdayNames : List String :=
  ["Monday", "Tuesday", "Wednesday", "Thursday", "Friday", "Saturday", "Sunday"]

/-- Two-digit zero padding used by `strftime("%I")`/`strftime("%M")`. -/
def pad2 (n : Nat) : String :=
  if n < 10 then "0" ++ toString n else toString n

/-- `World.get_time_str`: `sim_time.strftime("%A, %I:%M %p")` where `sim_time`
is minutes since midnight of the start day (a Monday). -/
def get_time_str (w : World) : String :=
  let total := w.sim_time.toNat
  let day := total / 1440
  let mins := total % 1440
  let hour24 := mins / 60
  let minute := mins % 60
  let hour12 := if hour24 % 12 = 0 then 12 else hour24 % 12
  let ampm := if hour24 < 12 then "AM" else "PM"
  (weekdayNames.getD (day % 7) "Monday") ++ ", " ++ pad2 hour12 ++ ":" ++
    pad2 minute ++ " " ++ ampm

/-- The per-agent context dictionary built by `World.get_agent_context_data`.
The `pending_events` key is only added when the location is found; `events`
keeps its default value in the source. -/
structure AgentContext where
  time : String
  location_name : String
  location_description : String
  people : String
  objects : String
  connections : String
  events : String
  inventory : String
  pending_events : Option (List String)
deriving DecidableEq, Repr

/-- The visible-object rendering loop of `World.get_agent_context_data`:
each entry shows only name, id, state and description. -/
def objectsInfoList (w : World) (ids : List String) : List String :=
  ids.filterMap fun obj_id =>
    match dlookup w.objects obj_id with
    | some obj =>
        some ("  - " ++ obj.name ++ " (id: " ++ obj.id ++ ", state: " ++ obj.state ++
          ")\n    " ++ obj.description)
    | none => none

/-- `World.get_agent_context_data`. -/
def get_agent_context_data (w : World) (agent_name location_id : String) :
    World × AgentContext :=
  let base : AgentContext :=
    { time := get_time_str w, location_name := "Unknown",
      location_description := "You are in an unknown void.", people := "No one else",
      objects := "None", connections := "None", events := "None",
      inventory := "Empty", pending_events := none }
  match dlookup w.locations location_id with
  | none => (w, base)
  | some loc =>
      let people := loc.agents_present.filter fun p => decide (p ≠ agent_name)
      let peopleStr := if people.isEmpty then "No one else" else String.intercalate ", " people
      let objsInfo := objectsInfoList w loc.objects
      let objectsStr :=
        if loc.objects.isEmpty then "None"
        else if objsInfo.isEmpty then "None"
        else String.intercalate "\n" objsInfo
      let connectionsStr :=
        if loc.connected_to.isEmpty then "None"
        else String.intercalate ", " loc.connected_to
      let popped := get_pending_events w agent_name
      let inv := get_agent_inventory popped.1 agent_name
      let invStr := if inv.isEmpty then "Empty" else String.intercalate ", " inv
      (popped.1,
       { base with
          location_name := loc.name, location_description := loc.description,
          people := peopleStr, objects := objectsStr, connections := connectionsStr,
          pending_events := some popped.2, inventory := invStr })

/-- `World.set_agent_lock`: unconditionally overwrites any existing lock for
the agent; a falsy (absent or empty) completion message defaults to
`"Finished {reason}."`. -/
def set_agent_lock (w : World) (agent_name : String) (duration_minutes : Int)
    (reason : String) (completion_message : Option String)
    (pending_effects : Option (List Effect)) : World :=
  let until_time := w.sim_time + duration_minutes
  let cm :=
    match completion_message with
    | some s => if s = "" then "Finished " ++ reason ++ "." else s
    | none => "Finished " ++ reason ++ "."
  let lock : AgentLock :=
    { until_time := until_time, reason := reason, completion_message := cm,
      pending_effects := pending_effects.getD [] }
  { w with agent_locks := dinsert w.agent_locks agent_name lock }

/-- Decidable equality for `Except`, so concrete runs can be checked by
`decide`. -/
instance {ε α : Type} [DecidableEq ε] [DecidableEq α] : DecidableEq (Except ε α) :=
  fun x y =>
    match x, y with
    | .ok a, .ok b =>
        if h : a = b then .isTrue (by rw [h])
        else .isFalse (by intro hh; injection hh with h2; exact h h2)
    | .error a, .error b =>
        if h : a = b then .isTrue (by rw [h])
        else .isFalse (by intro hh; injection hh with h2; exact h h2)
    | .ok _, .error _ => .isFalse (by intro hh; cases hh)
    | .error _, .ok _ => .isFalse (by intro hh; cases hh)

/-- An uncaught Python exception: `typeError` covers a keyword-argument set
that does not fit the called signature (including wrongly typed values, which
the pydantic model constructors reject); `attributeError` covers access to a
method the receiver does not define. -/
inductive PyErr where
  | typeError
  | attributeError
deriving DecidableEq, Repr

/-- Key `k` of `args` is present and bound to a string. -/
def argIsStr (args : Dict PyVal) (k : String) : Bool :=
  match dlookup args k with
  | some (.str _) => true
  | _ => false

/-- Key `k` of `args` is absent or bound to a string. -/
def argAbsentOrStr (args : Dict PyVal) (k : String) : Bool :=
  match dlookup args k with
  | none => true
  | some (.str _) => true
  | _ => false

/-- Key `k` of `args` is absent or bound to a dict. -/
def argAbsentOrDict (args : Dict PyVal) (k : String) : Bool :=
  match dlookup args k with
  | none => true
  | some (.dict _) => true
  | _ => false

/-- The string bound to key `k` (meaningful when `argIsStr` holds). -/
def argStr (args : Dict PyVal) (k : String) : String :=
  match dlookup args k with
  | some (.str s) => s
  | _ => ""

/-- The string bound to key `k`, or the parameter default when absent. -/
def argStrD (args : Dict PyVal) (k d : String) : String :=
  match dlookup args k with
  | some (.str s) => s
  | _ => d

/-- The dict bound to key `k`, or `{}` (the `internal_state or {}` default). -/
def argDictD (args : Dict PyVal) (k : String) : Dict PyPrim :=
  match dlookup args k with
  | some (.dict d) => d
  | _ => []

/-- The string bound to key `k` as an optional keyword value. -/
def argOptStr (args : Dict PyVal) (k : String) : Option String :=
  match dlookup args k with
  | some (.str s) => some s
  | _ => none

/-- The dict bound to key `k` as an optional keyword value. -/
def argOptDict (args : Dict PyVal) (k : String) : Option (Dict PyPrim) :=
  match dlookup args k with
  | some (.dict d) => some d
  | _ => none

/-- Every key of `args` is among `allowed` (no unexpected keyword). -/
def keysSubset (args : Dict PyVal) (allowed : List String) : Bool :=
  args.all fun p => allowed.contains p.1

/-- `args` fits `World.create_object(**args)`: required `object_id`, `name`,
`location_id`; optional `state`, `description`, `mechanics`, `internal_state`. -/
def kwargsFitCreate (args : Dict PyVal) : Bool :=
  keysSubset args ["object_id", "name", "location_id", "state", "description",
    "mechanics", "internal_state"] &&
  argIsStr args "object_id" && argIsStr args "name" && argIsStr args "location_id" &&
  argAbsentOrStr args "state" && argAbsentOrStr args "description" &&
  argAbsentOrStr args "mechanics" && argAbsentOrDict args "internal_state"

/-- `args` fits `World.transfer_object(**args)`: exactly `object_id`,
`from_id`, `to_id`, all required. -/
def kwargsFitTransfer (args : Dict PyVal) : Bool :=
  keysSubset args ["object_id", "from_id", "to_id"] &&
  argIsStr args "object_id" && argIsStr args "from_id" && argIsStr args "to_id"

/-- `args` fits `World.update_object(**args)`: required `object_id`; optional
`state`, `description`, `internal_state`. -/
def kwargsFitUpdate (args : Dict PyVal) : Bool :=
  keysSubset args ["object_id", "state", "description", "internal_state"] &&
  argIsStr args "object_id" && argAbsentOrStr args "state" &&
  argAbsentOrStr args "description" && argAbsentOrDict args "internal_state"

/-- `World._execute_pending_effect`.  `CreateObject`, `TransferObject` and
`UpdateObject` unpack `**args` into the target method, so a keyword set that
does not fit the signature raises (`typeError`); `DestroyObject` only calls
`args.get("object_id")` and so never raises; an unrecognized effect type is a
silent no-op. -/
def execute_pending_effect (w : World) (effect : Effect) : Except PyErr World :=
  if effect.type = "CreateObject" then
    if kwargsFitCreate effect.args then
      .ok (create_object w (argStr effect.args "object_id") (argStr effect.args "name")
        (argStr effect.args "location_id") (argStrD effect.args "state" "normal")
        (argStrD effect.args "description" "") (argStrD effect.args "mechanics" "")
        (argDictD effect.args "internal_state")).1
    else .error .typeError
  else if effect.type = "DestroyObject" then
    .ok (match dlookup effect.args "object_id" with
      | some (.str s) => (destroy_object w s).1
      | _ => w)
  else if effect.type = "TransferObject" then
    if kwargsFitTransfer effect.args then
      .ok (transfer_object w (argStr effect.args "object_id")
        (argStr effect.args "from_id") (argStr effect.args "to_id")).1
    else .error .typeError
  else if effect.type = "UpdateObject" then
    if kwargsFitUpdate effect.args then
      .ok (update_object w (argStr effect.args "object_id")
        (argOptStr effect.args "state") (argOptStr effect.args "description")
        (argOptDict effect.args "internal_state")).1
    else .error .typeError
  else .ok w

/-- An effect whose args fit the signature of its target operation (replay of
such an effect cannot raise). -/
def EffectFits (e : Effect) : Bool :=
  if e.type = "CreateObject" then kwargsFitCreate e.args
  else if e.type = "TransferObject" then kwargsFitTransfer e.args
  else if e.type = "UpdateObject" then kwargsFitUpdate e.args
  else true

/-- The `for effect in lock["pending_effects"]` replay loop of
`World.check_agent_lock`: an exception raised by one effect propagates and the
remaining effects are not attempted. -/
def replayEffects : World → List Effect → Except PyErr World
  | w, [] => .ok w
  | w, e :: rest =>
      match execute_pending_effect w e with
      | .ok w' => replayEffects w' rest
      | .error err => .error err

/-- The replay of one effect with a raised exception discarded (used only to
state which world a successful replay produces). -/
def execEffectTotal (w : World) (e : Effect) : World :=
  match execute_pending_effect w e with
  | .ok w' => w'
  | .error _ => w

/-- The value `World.check_agent_lock` returns: the
`{"expired": False, "reason": ...}` or `{"expired": True, "message": ...}`
dict. -/
inductive LockResult where
  | active (reason : String)
  | expired (message : String)
deriving DecidableEq, Repr

/-- `World.check_agent_lock`: reads the lock; if expired, replays the pending
effects in order, deletes the lock, and reports `expired` with the completion
message; otherwise reports `active` with the reason and mutates nothing. -/
def check_agent_lock (w : World) (agent_name : String) :
    Except PyErr (World × Option LockResult) :=
  match dlookup w.agent_locks agent_name with
  | none => .ok (w, none)
  | some lock =>
      if lock.until_time ≤ w.sim_time then
        match replayEffects w lock.pending_effects with
        | .ok w' =>
            .ok ({ w' with agent_locks := dremove w'.agent_locks agent_name },
                 some (.expired lock.completion_message))
        | .error e => .error e
      else .ok (w, some (.active lock.reason))

/-- The value `WorldEngine._execute_query_entity` returns. -/
inductive QueryResult where
  | objectRes (data : WorldObject)
  | agentRes (name location_id : String) (inventory : List String)
  | err (message : String)
deriving DecidableEq, Repr

/-- `WorldEngine._execute_query_entity`: tries the object map first, then the
agent-position map, and reports not-found otherwise; it never mutates the
world (the source only reads through `get_object`, `get_agent_location`,
`get_agent_inventory`). -/
def execute_query_entity (w : World) (entity_id : String) : QueryResult :=
  match dlookup w.objects entity_id with
  | some obj => .objectRes obj
  | none =>
      match dlookup w.agent_locations entity_id with
      | some location_id =>
          .agentRes entity_id location_id (get_agent_inventory w entity_id)
      | none => .err ("Entity \x27" ++ entity_id ++ "\x27 not found")

/-- `WorldEngine._finalize_interaction`.  For `duration > 0` it defers the
staged effects into an agent lock and synthesizes a "Started" message.  For
`duration <= 0` the source runs `for effect in pending_effects:
world.execute_effect(effect)`, but `World` defines no method named
`execute_effect` (its replay method is `_execute_pending_effect`), so the
first iteration of a non-empty loop raises `AttributeError`; with no staged
effects the loop body never runs and the narrative message is returned. -/
def finalize_interaction (message : String) (duration : Int)
    (task_description : Option String) (pending_effects : List Effect)
    (w : World) (agent_name : String) : Except PyErr (World × String) :=
  if 0 < duration then
    let task :=
      match task_description with
      | some s => if s = "" then "busy" else s
      | none => "busy"
    .ok (set_agent_lock w agent_name duration task (some message) (some pending_effects),
         "Started: " ++ task ++ " (" ++ toString duration ++ " min)...")
  else
    match pending_effects with
    | [] => .ok (w, message)
    | _ :: _ => .error .attributeError

/-- Visible-field equality of two objects: same id, name, location_id, state
and description; `mechanics` and `internal_state` are unconstrained. -/
def objVisEq (o1 o2 : WorldObject) : Bool :=
  decide (o1.id = o2.id) && decide (o1.name = o2.name) &&
  decide (o1.location_id = o2.location_id) && decide (o1.state = o2.state) &&
  decide (o1.description = o2.description)

/-- Pointwise visible-field equality of two object dicts. -/
def objectsVisEq : Dict WorldObject → Dict WorldObject → Bool
  | [], [] => true
  | p :: t1, q :: t2 => decide (p.1 = q.1) && objVisEq p.2 q.2 && objectsVisEq t1 t2
  | _, _ => false

/-- Two world states differ at most in the hidden `mechanics` /
`internal_state` of their objects: every other component is equal. -/
def visEq (w1 w2 : World) : Bool :=
  decide (w1.locations = w2.locations) && objectsVisEq w1.objects w2.objects &&
  decide (w1.edges = w2.edges) && decide (w1.pending_events = w2.pending_events) &&
  decide (w1.agent_locks = w2.agent_locks) &&
  decide (w1.agent_locations = w2.agent_locations) &&
  decide (w1.sim_time = w2.sim_time)

/-- Keys of a dict are pairwise distinct (every reachable Python dict). -/
def DKeysNodup {α : Type} (d : Dict α) : Prop :=
  (d.map Prod.fst).Nodup

instance {α : Type} (d : Dict α) : Decidable (DKeysNodup d) := by
  unfold DKeysNodup; infer_instance

/-- One EntityStore call with arbitrary arguments (the operation language over
which C4 quantifies). -/
inductive StoreOp where
  | create (object_id name location_id state description mechanics : String)
      (internal_state : Dict PyPrim)
  | destroy (object_id : String)
  | transfer (object_id from_id to_id : String)
deriving DecidableEq, Repr

/-- Apply one store operation (ignoring the success flag, as a driver would). -/
def applyOp (w : World) : StoreOp → World
  | .create oid nm loc st ds mech ist => (create_object w oid nm loc st ds mech ist).1
  | .destroy oid => (destroy_object w oid).1
  | .transfer oid fid tid => (transfer_object w oid fid tid).1

/-- Apply a sequence of store operations in order. -/
def applyOps (w : World) (ops : List StoreOp) : World :=
  ops.foldl applyOp w

/-- A transfer is well-sourced when `from_id` names the object's current
holder (`location_id`); creates, destroys, and transfers of missing objects
are unrestricted. -/
def goodOp (w : World) : StoreOp → Bool
  | .transfer oid fid _ =>
      match dlookup w.objects oid with
      | some obj => decide (fid = obj.location_id)
      | none => true
  | _ => true

/-- Every operation of the run is well-sourced at its point of application. -/
def goodRun (w : World) : List StoreOp → Bool
  | [] => true
  | op :: rest => goodOp w op && goodRun (applyOp w op) rest

/-- Object conservation: every existing object id occurs in the objects list
of at most one location, and at most once in that list. -/
def conservationB (w : World) : Bool :=
  w.objects.all fun po =>
    decide (w.locations.countP (fun q => decide (po.1 ∈ q.2.objects)) ≤ 1) &&
    w.locations.all fun q => decide (q.2.objects.count po.1 ≤ 1)

/-- Store well-formedness: location keys are unique and non-empty (an empty
id is falsy in the source's guards and never names a loaded location), each
location's objects list is duplicate-free, and every listed object id exists
with that location as its `location_id`. -/
def StoreWF (w : World) : Prop :=
  DKeysNodup w.locations ∧
  ∀ k loc, dlookup w.locations k = some loc →
    k ≠ "" ∧ loc.objects.Nodup ∧
    ∀ oid ∈ loc.objects,
      (dlookup w.objects oid).map (fun o => o.location_id) = some k

/-- Executable (entry-wise) form of `StoreWF`. -/
def storeWFB (w : World) : Bool :=
  decide (DKeysNodup w.locations) &&
  w.locations.all fun q =>
    decide (q.1 ≠ "") && decide (q.2.objects.Nodup) &&
    q.2.objects.all fun oid =>
      decide ((dlookup w.objects oid).map (fun o => o.location_id) = some q.1)

/-! ## Concrete fixtures (the spec's §8 scenario, used by witnesses) -/

/-- The lamp of the spec's concrete scenario. -/
def lampObj : WorldObject :=
  { id := "lamp", name := "Lamp", location_id := "room_a", state := "off",
    description := "A small lamp.", mechanics := "Toggle on or off.",
    internal_state := [("on", .bool false)] }

/-- Room A: connected to room B, holds the lamp, Ann and Bob present. -/
def roomA : Location :=
  { id := "room_a", name := "Room A", description := "The first room.",
    connected_to := ["room_b"], objects := ["lamp"], agents_present := ["Ann", "Bob"] }

/-- Room B: connected to room A, Eve present. -/
def roomB : Location :=
  { id := "room_b", name := "Room B", description := "The second room.",
    connected_to := ["room_a"], objects := [], agents_present := ["Eve"] }

/-- The scenario world: rooms `room_a <-> room_b`, lamp in room A,
Ann and Bob in room A, Eve in room B, clock at Monday 8:00 AM. -/
def sampleWorld : World :=
  { locations := [("room_a", roomA), ("room_b", roomB)],
    objects := [("lamp", lampObj)],
    edges := [("room_a", "room_b")],
    pending_events := [],
    agent_locks := [],
    agent_locations := [("Ann", "room_a"), ("Bob", "room_a"), ("Eve", "room_b")],
    sim_time := 480 }

/-- An object whose id collides with agent Ann's name. -/
def annObj : WorldObject :=
  { id := "Ann", name := "Statue of Ann", location_id := "room_a", state := "normal",
    description := "A stone statue.", mechanics := "", internal_state := [] }

/-- `sampleWorld` with an object registered under the id "Ann". -/
def shadowWorld : World :=
  { sampleWorld with objects := [("lamp", lampObj), ("Ann", annObj)] }

/-- A location holding the orb (C4 fixture). -/
def locP : Location :=
  { id := "room_a", name := "Room A", description := "r", connected_to := [],
    objects := ["o"], agents_present := [] }

/-- An empty location (C4 fixture). -/
def locQ : Location :=
  { id := "room_b", name := "Room B", description := "r", connected_to := [],
    objects := [], agents_present := [] }

/-- The orb, owned by room A (C4 fixture). -/
def orbObj : WorldObject :=
  { id := "o", name := "Orb", location_id := "room_a", state := "normal",
    description := "An orb.", mechanics := "", internal_state := [] }

/-- A two-room world with one object, fully consistent (C4 fixture). -/
def c4World : World :=
  { locations := [("room_a", locP), ("room_b", locQ)],
    objects := [("o", orbObj)],
    edges := [], pending_events := [], agent_locks := [], agent_locations := [],
    sim_time := 0 }

/-- The staged `update_object(lamp, state="on")` effect of the scenario. -/
def lampOnEffect : Effect :=
  { type := "UpdateObject", args := [("object_id", .str "lamp"), ("state", .str "on")] }

/-- A pre-existing lock for Ann carrying a deferred destroy effect. -/
def priorLock : AgentLock :=
  { until_time := 500, reason := "napping", completion_message := "Woke up.",
    pending_effects := [{ type := "DestroyObject", args := [("object_id", .str "lamp")] }] }

/-- `sampleWorld` with Ann already locked. -/
def lockedWorld : World :=
  { sampleWorld with agent_locks := [("Ann", priorLock)] }

/-- A deferred effect whose args do not fit `transfer_object` (missing the
required `from_id` and `to_id` keywords): replay raises TypeError. -/
def badEffect : Effect :=
  { type := "TransferObject", args := [("object_id", .str "lamp")] }

/-- A deferred `create_object` whose id already exists: the operation returns
a failure signal which replay logs and swallows. -/
def dupCreateEffect : Effect :=
  { type := "CreateObject",
    args := [("object_id", .str "lamp"), ("name", .str "Lamp"),
             ("location_id", .str "room_a")] }

/-- `sampleWorld` with the lamp's hidden mechanics and internal state changed
(visible fields identical). -/
def hiddenVariantWorld : World :=
  { sampleWorld with objects := [("lamp", { lampObj with mechanics := "Secret rules.", internal_state := [("on", .bool true), ("fuse", .str "ok")] })] }

/-- `sampleWorld` with Bob holding an expired lock whose first pending effect
has ill-fitting args and whose second is well-formed. -/
def c5World : World :=
  { sampleWorld with agent_locks :=
      [("Bob", { until_time := 480, reason := "working",
                 completion_message := "Done.",
                 pending_effects := [badEffect, lampOnEffect] })] }

/-- Ann locked at Monday 8:00 for 10 minutes with the staged lamp update,
observed at 8:10 (expiry time reached). -/
def c2World : World :=
  { set_agent_lock sampleWorld "Ann" 10 "repairing" (some "Repair complete.")
      (some [lampOnEffect]) with sim_time := 490 }

/-! ## Association-list (Python dict) lemmas -/

theorem dlookup_eq_none_of_not_mem {α : Type} {d : Dict α} {k : String}
    (h : k ∉ d.map Prod.fst) : dlookup d k = none := by
  induction d with
  | nil => rfl
  | cons p rest ih =>
      obtain ⟨k', v'⟩ := p
      simp only [List.map_cons, List.mem_cons, not_or] at h
      have h1 : ¬ k' = k := fun hh => h.1 hh.symm
      simp [dlookup, h1, ih h.2]

theorem mem_of_dlookup_isSome {α : Type} {d : Dict α} {k : String}
    (h : (dlookup d k).isSome) : k ∈ d.map Prod.fst := by
  by_contra hmem
  rw [dlookup_eq_none_of_not_mem hmem] at h
  simp at h

theorem dlookup_dinsert_self {α : Type} (d : Dict α) (k : String) (v : α) :
    dlookup (dinsert d k v) k = some v := by
  induction d with
  | nil => simp [dinsert, dlookup]
  | cons p rest ih =>
      obtain ⟨k', v'⟩ := p
      by_cases h : k' = k
      · simp [dinsert, h, dlookup]
      · simp [dinsert, h, dlookup, ih]

theorem dlookup_dinsert_ne {α : Type} (d : Dict α) (k : String) (v : α)
    {key : String} (h : key ≠ k) : dlookup (dinsert d k v) key = dlookup d key := by
  have hne : ¬ k = key := fun hh => h hh.symm
  induction d with
  | nil => simp [dinsert, dlookup, hne]
  | cons p rest ih =>
      obtain ⟨k', v'⟩ := p
      by_cases hk : k' = k
      · subst hk
        simp [dinsert, dlookup, hne]
      · simp only [dinsert, if_neg hk]
        by_cases hkey : k' = key
        · simp [dlookup, hkey]
        · simp [dlookup, hkey, ih]

theorem dlookup_dmodify_self {α : Type} (d : Dict α) (k : String) (f : α → α) :
    dlookup (dmodify d k f) k = (dlookup d k).map f := by
  induction d with
  | nil => simp [dmodify, dlookup]
  | cons p rest ih =>
      obtain ⟨k', v'⟩ := p
      by_cases h : k' = k
      · simp [dmodify, h, dlookup]
      · simp [dmodify, h, dlookup, ih]

theorem dlookup_dmodify_ne {α : Type} (d : Dict α) (k : String) (f : α → α)
    {key : String} (h : key ≠ k) : dlookup (dmodify d k f) key = dlookup d key := by
  have hne : ¬ k = key := fun hh => h hh.symm
  induction d with
  | nil => simp [dmodify, dlookup]
  | cons p rest ih =>
      obtain ⟨k', v'⟩ := p
      by_cases hk : k' = k
      · subst hk
        simp [dmodify, dlookup, hne]
      · simp only [dmodify, if_neg hk]
        by_cases hkey : k' = key
        · simp [dlookup, hkey]
        · simp [dlookup, hkey, ih]

theorem dlookup_dremove_ne {α : Type} (d : Dict α) (k : String)
    {key : String} (h : key ≠ k) : dlookup (dremove d k) key = dlookup d key := by
  have hne : ¬ k = key := fun hh => h hh.symm
  induction d with
  | nil => simp [dremove, dlookup]
  | cons p rest ih =>
      obtain ⟨k', v'⟩ := p
      by_cases hk : k' = k
      · subst hk
        simp [dremove, dlookup, hne]
      · simp only [dremove, if_neg hk]
        by_cases hkey : k' = key
        · simp [dlookup, hkey]
        · simp [dlookup, hkey, ih]

theorem dlookup_dremove_self {α : Type} {d : Dict α} {k : String}
    (h : DKeysNodup d) : dlookup (dremove d k) k = none := by
  induction d with
  | nil => rfl
  | cons p rest ih =>
      obtain ⟨k', v'⟩ := p
      simp only [DKeysNodup, List.map_cons, List.nodup_cons] at h
      by_cases hk : k' = k
      · subst hk
        simp only [dremove, if_pos rfl]
        exact dlookup_eq_none_of_not_mem h.1
      · simp only [dremove, if_neg hk, dlookup, if_neg hk]
        exact ih h.2

theorem mem_keys_dinsert {α : Type} (d : Dict α) (k : String) (v : α) (key : String) :
    key ∈ (dinsert d k v).map Prod.fst ↔ key ∈ d.map Prod.fst ∨ key = k := by
  induction d with
  | nil => simp [dinsert]
  | cons p rest ih =>
      obtain ⟨k', v'⟩ := p
      by_cases h : k' = k
      · subst h
        simp only [dinsert, if_pos rfl, List.map_cons, List.mem_cons, ite_true]
        tauto
      · simp only [dinsert, if_neg h, List.map_cons, List.mem_cons, ih]
        tauto

theorem dkeysNodup_dinsert {α : Type} {d : Dict α} (k : String) (v : α)
    (h : DKeysNodup d) : DKeysNodup (dinsert d k v) := by
  induction d with
  | nil => simp [dinsert, DKeysNodup]
  | cons p rest ih =>
      obtain ⟨k', v'⟩ := p
      simp only [DKeysNodup, List.map_cons, List.nodup_cons] at h
      by_cases hk : k' = k
      · simp only [DKeysNodup, dinsert, if_pos hk, List.map_cons, List.nodup_cons]
        exact ⟨h.1, h.2⟩
      · simp only [DKeysNodup, dinsert, if_neg hk, List.map_cons, List.nodup_cons]
        refine ⟨?_, ih h.2⟩
        rw [mem_keys_dinsert]
        rintro (hm | hm)
        · exact h.1 hm
        · exact hk hm

theorem dkeys_dmodify {α : Type} (d : Dict α) (k : String) (f : α → α) :
    (dmodify d k f).map Prod.fst = d.map Prod.fst := by
  induction d with
  | nil => rfl
  | cons p rest ih =>
      obtain ⟨k', v'⟩ := p
      by_cases h : k' = k
      · simp [dmodify, h]
      · simp [dmodify, h, ih]

theorem dkeysNodup_dmodify {α : Type} {d : Dict α} (k : String) (f : α → α)
    (h : DKeysNodup d) : DKeysNodup (dmodify d k f) := by
  unfold DKeysNodup
  rw [dkeys_dmodify]
  exact h

theorem dictUpdate_lookup {patch : Dict PyPrim} (hnd : DKeysNodup patch) :
    ∀ (d : Dict PyPrim) (k : String),
      dlookup (dictUpdate d patch) k =
        match dlookup patch k with
        | some v => some v
        | none => dlookup d k := by
  induction patch with
  | nil => intro d k; simp [dictUpdate, dlookup]
  | cons p rest ih =>
      intro d k
      obtain ⟨k₀, v₀⟩ := p
      simp only [DKeysNodup, List.map_cons, List.nodup_cons] at hnd
      have step : dictUpdate d ((k₀, v₀) :: rest) = dictUpdate (dinsert d k₀ v₀) rest := by
        simp [dictUpdate]
      rw [step, ih hnd.2]
      by_cases hk : k = k₀
      · subst hk
        have : dlookup rest k = none := dlookup_eq_none_of_not_mem hnd.1
        simp [this, dlookup, dlookup_dinsert_self]
      · simp only [dlookup, if_neg (fun hh : k₀ = k => hk hh.symm)]
        cases hrest : dlookup rest k with
        | some v => simp
        | none => simp [dlookup_dinsert_ne _ _ _ hk]

theorem dlookup_append {α : Type} (d1 d2 : Dict α) (key : String) :
    dlookup (d1 ++ d2) key =
      match dlookup d1 key with
      | some v => some v
      | none => dlookup d2 key := by
  induction d1 with
  | nil => simp [dlookup]
  | cons p rest ih =>
      obtain ⟨k', v'⟩ := p
      by_cases h : k' = key <;> simp [dlookup, h, ih]

theorem dlookup_isSome_of_mem {α : Type} {d : Dict α} {k : String}
    (h : k ∈ d.map Prod.fst) : (dlookup d k).isSome := by
  induction d with
  | nil => simp at h
  | cons p rest ih =>
      obtain ⟨k', v'⟩ := p
      simp only [List.map_cons, List.mem_cons] at h
      by_cases hk : k' = k
      · simp [dlookup, hk]
      · rcases h with h | h
        · exact absurd h.symm hk
        · simp [dlookup, hk, ih h]

theorem dkeysNodup_append_new {α : Type} {d : Dict α} {k : String} {v : α}
    (h : DKeysNodup d) (hk : dlookup d k = none) : DKeysNodup (d ++ [(k, v)]) := by
  unfold DKeysNodup at h ⊢
  rw [List.map_append]
  rw [List.nodup_append]
  refine ⟨h, by simp, ?_⟩
  intro x hx
  simp only [List.map_cons, List.map_nil, List.mem_singleton]
  intro hxk
  subst hxk
  have := dlookup_isSome_of_mem hx
  rw [hk] at this
  simp at this

theorem mem_of_dlookup {α : Type} {d : Dict α} {k : String} {v : α}
    (h : dlookup d k = some v) : (k, v) ∈ d := by
  induction d with
  | nil => cases h
  | cons p rest ih =>
      obtain ⟨k', v'⟩ := p
      by_cases hk : k' = k
      · subst hk
        rw [dlookup, if_pos rfl] at h
        cases h
        exact List.mem_cons_self ..
      · rw [dlookup, if_neg hk] at h
        exact List.mem_cons_of_mem _ (ih h)

theorem dlookup_of_mem_nodup {α : Type} {d : Dict α} (hnd : DKeysNodup d)
    {p : String × α} (hp : p ∈ d) : dlookup d p.1 = some p.2 := by
  induction d with
  | nil => cases hp
  | cons q rest ih =>
      obtain ⟨k', v'⟩ := q
      rw [DKeysNodup, List.map_cons, List.nodup_cons] at hnd
      rcases List.mem_cons.mp hp with hh | hh
      · subst hh
        simp [dlookup]
      · have hne : k' ≠ p.1 := by
          intro hh2
          apply hnd.1
          rw [hh2]
          exact List.mem_map.mpr ⟨p, hh, rfl⟩
        rw [dlookup, if_neg hne]
        exact ih hnd.2 hh

theorem countP_le_one_of_const_key {α : Type} (l : List (String × α))
    (P : String × α → Bool) (c : String) (hnd : (l.map Prod.fst).Nodup)
    (h : ∀ q ∈ l, P q = true → q.1 = c) : l.countP P ≤ 1 := by
  induction l with
  | nil => simp
  | cons q rest ih =>
      rw [List.map_cons, List.nodup_cons] at hnd
      rw [List.countP_cons]
      by_cases hq : P q = true
      · have hqc := h q (List.mem_cons_self ..) hq
        have hrest : rest.countP P = 0 := by
          rw [List.countP_eq_zero]
          intro r hr hPr
          apply hnd.1
          rw [hqc, ← h r (List.mem_cons_of_mem _ hr) hPr]
          exact List.mem_map_of_mem Prod.fst hr
        simp [hq, hrest]
      · have hrec := ih hnd.2 (fun r hr hPr => h r (List.mem_cons_of_mem _ hr) hPr)
        simp only [hq]
        simpa using hrec

/-! ## Store well-formedness lemmas (C4) -/

theorem storeWF_of_B {w : World} (h : storeWFB w = true) : StoreWF w := by
  unfold storeWFB at h
  rw [Bool.and_eq_true, decide_eq_true_eq, List.all_eq_true] at h
  obtain ⟨hnd, hall⟩ := h
  refine ⟨hnd, ?_⟩
  intro k loc hl
  have hmem := mem_of_dlookup hl
  have hq := hall (k, loc) hmem
  simp only [Bool.and_eq_true, decide_eq_true_eq, List.all_eq_true] at hq
  obtain ⟨⟨hk, hnodup⟩, hptr⟩ := hq
  refine ⟨hk, hnodup, ?_⟩
  intro oid hoid
  exact hptr oid hoid

theorem conservationB_of_storeWF {w : World} (h : StoreWF w) :
    conservationB w = true := by
  obtain ⟨hnd, hprop⟩ := h
  unfold conservationB
  rw [List.all_eq_true]
  intro po hpo
  rw [Bool.and_eq_true]
  constructor
  · rw [decide_eq_true_eq]
    by_cases hex : ∃ q ∈ w.locations, po.1 ∈ q.2.objects
    · obtain ⟨q0, hq0, hmem0⟩ := hex
      have hl0 : dlookup w.locations q0.1 = some q0.2 := dlookup_of_mem_nodup hnd hq0
      obtain ⟨_, _, hptr0⟩ := hprop q0.1 q0.2 hl0
      have hc0 := hptr0 po.1 hmem0
      apply countP_le_one_of_const_key _ _ q0.1 hnd
      intro q hq hPq
      rw [decide_eq_true_eq] at hPq
      have hlq : dlookup w.locations q.1 = some q.2 := dlookup_of_mem_nodup hnd hq
      obtain ⟨_, _, hptrq⟩ := hprop q.1 q.2 hlq
      have hcq := hptrq po.1 hPq
      exact Option.some.inj (hcq.symm.trans hc0)
    · push_neg at hex
      have hz : w.locations.countP (fun q => decide (po.1 ∈ q.2.objects)) = 0 := by
        rw [List.countP_eq_zero]
        intro q hq
        simp [hex q hq]
      rw [hz]
      norm_num
  · rw [List.all_eq_true]
    intro q hq
    rw [decide_eq_true_eq]
    have hlq := dlookup_of_mem_nodup hnd hq
    obtain ⟨_, hnodup, _⟩ := hprop q.1 q.2 hlq
    exact List.nodup_iff_count_le_one.mp hnodup po.1

theorem dcontains_false_lookup {α : Type} {d : Dict α} {k : String}
    (h : dcontains d k = false) : dlookup d k = none := by
  unfold dcontains at h
  cases hl : dlookup d k with
  | none => rfl
  | some v => rw [hl] at h; simp at h

theorem storeWF_create (w : World) (oid nm loc st ds mech : String)
    (ist : Dict PyPrim) (hwf : StoreWF w) :
    StoreWF ((create_object w oid nm loc st ds mech ist).1) := by
  obtain ⟨hnd, hprop⟩ := hwf
  unfold create_object
  split
  · exact ⟨hnd, hprop⟩
  · rename_i hcont
    have hnone : dlookup w.objects oid = none :=
      dcontains_false_lookup (Bool.not_eq_true _ ▸ hcont)
    dsimp only
    simp only [modifyLocation]
    split
    · rename_i hvalid
      rw [Bool.and_eq_true, decide_eq_true_eq] at hvalid
      constructor
      · exact dkeysNodup_dmodify _ _ hnd
      · intro k loc' hl
        simp only [modifyLocation] at hl
        by_cases hk : k = loc
        · subst hk
          rw [dlookup_dmodify_self] at hl
          cases hv : dlookup w.locations k with
          | none => rw [hv] at hl; cases hl
          | some v =>
              rw [hv] at hl
              obtain ⟨hk0, hvnd, hvptr⟩ := hprop k v hv
              have hlv : loc' = { v with objects := v.objects ++ [oid] } :=
                (Option.some.inj hl).symm
              subst hlv
              have hoidnot : oid ∉ v.objects := by
                intro hmm
                have hkk := hvptr oid hmm
                rw [hnone] at hkk
                cases hkk
              refine ⟨hk0, ?_, ?_⟩
              · simp [List.nodup_append, hvnd, hoidnot]
              · intro oid' hoid'
                rcases List.mem_append.mp hoid' with hm | hm
                · have hold := hvptr oid' hm
                  have hne2 : oid' ≠ oid := by
                    intro hq
                    rw [hq, hnone] at hold
                    cases hold
                  rw [dlookup_dinsert_ne _ _ _ hne2]
                  exact hold
                · have heq : oid' = oid := by simpa using hm
                  subst heq
                  rw [dlookup_dinsert_self]
                  rfl
        · rw [dlookup_dmodify_ne _ _ _ hk] at hl
          obtain ⟨hk0, hvnd, hvptr⟩ := hprop k loc' hl
          refine ⟨hk0, hvnd, ?_⟩
          intro oid' hoid'
          have hold := hvptr oid' hoid'
          have hne2 : oid' ≠ oid := by
            intro hq
            rw [hq, hnone] at hold
            cases hold
          rw [dlookup_dinsert_ne _ _ _ hne2]
          exact hold
    · constructor
      · exact hnd
      · intro k loc' hl
        obtain ⟨hk0, hvnd, hvptr⟩ := hprop k loc' hl
        refine ⟨hk0, hvnd, ?_⟩
        intro oid' hoid'
        have hold := hvptr oid' hoid'
        have hne2 : oid' ≠ oid := by
          intro hq
          rw [hq, hnone] at hold
          cases hold
        rw [dlookup_dinsert_ne _ _ _ hne2]
        exact hold

theorem storeWF_destroy (w : World) (oid : String) (hwf : StoreWF w) :
    StoreWF ((destroy_object w oid).1) := by
  obtain ⟨hnd, hprop⟩ := hwf
  unfold destroy_object
  split
  · exact ⟨hnd, hprop⟩
  · rename_i obj hobj
    dsimp only
    simp only [modifyLocation]
    split
    · rename_i hvalid
      rw [Bool.and_eq_true, decide_eq_true_eq] at hvalid
      constructor
      · exact dkeysNodup_dmodify _ _ hnd
      · intro k loc' hl
        by_cases hk : k = obj.location_id
        · subst hk
          rw [dlookup_dmodify_self] at hl
          cases hv : dlookup w.locations obj.location_id with
          | none => rw [hv] at hl; cases hl
          | some v =>
              rw [hv] at hl
              obtain ⟨hk0, hvnd, hvptr⟩ := hprop _ v hv
              have hlv : (if oid ∈ v.objects then
                  { v with objects := v.objects.erase oid } else v) = loc' :=
                Option.some.inj hl
              by_cases hmem : oid ∈ v.objects
              · rw [if_pos hmem] at hlv
                subst hlv
                refine ⟨hk0, hvnd.erase oid, ?_⟩
                intro oid' hoid'
                obtain ⟨hne2, hm⟩ := (List.Nodup.mem_erase_iff hvnd).mp hoid'
                rw [dlookup_dremove_ne _ _ hne2]
                exact hvptr oid' hm
              · rw [if_neg hmem] at hlv
                subst hlv
                refine ⟨hk0, hvnd, ?_⟩
                intro oid' hoid'
                have hne2 : oid' ≠ oid := fun hq => hmem (hq ▸ hoid')
                rw [dlookup_dremove_ne _ _ hne2]
                exact hvptr oid' hoid'
        · rw [dlookup_dmodify_ne _ _ _ hk] at hl
          obtain ⟨hk0, hvnd, hvptr⟩ := hprop k loc' hl
          refine ⟨hk0, hvnd, ?_⟩
          intro oid' hoid'
          have hold := hvptr oid' hoid'
          have hne2 : oid' ≠ oid := by
            intro hq
            subst hq
            rw [hobj] at hold
            have h3 : obj.location_id = k := by simpa using hold
            exact hk h3.symm
          rw [dlookup_dremove_ne _ _ hne2]
          exact hold
    · rename_i hinvalid
      constructor
      · exact hnd
      · intro k loc' hl
        obtain ⟨hk0, hvnd, hvptr⟩ := hprop k loc' hl
        refine ⟨hk0, hvnd, ?_⟩
        intro oid' hoid'
        have hold := hvptr oid' hoid'
        have hne2 : oid' ≠ oid := by
          intro hq
          subst hq
          rw [hobj] at hold
          have h3 : obj.location_id = k := by simpa using hold
          apply hinvalid
          rw [Bool.and_eq_true, decide_eq_true_eq]
          refine ⟨by rw [h3]; exact hk0, ?_⟩
          unfold dcontains
          rw [h3, hl]
          rfl
        rw [dlookup_dremove_ne _ _ hne2]
        exact hold

theorem dcontains_dmodify {α : Type} (d : Dict α) (k : String) (f : α → α)
    (key : String) : dcontains (dmodify d k f) key = dcontains d key := by
  unfold dcontains
  by_cases h : key = k
  · subst h
    rw [dlookup_dmodify_self]
    cases dlookup d key <;> rfl
  · rw [dlookup_dmodify_ne _ _ _ h]

theorem option_map_some {α β : Type} (f : α → β) (a : α) :
    Option.map f (some a) = some (f a) := rfl

theorem storeWF_transfer_good (w : World) (oid fid tid : String) (hwf : StoreWF w)
    (hg : goodOp w (.transfer oid fid tid) = true) :
    StoreWF ((transfer_object w oid fid tid).1) := by
  obtain ⟨hnd, hprop⟩ := hwf
  unfold transfer_object
  split
  · exact ⟨hnd, hprop⟩
  · rename_i obj hobj
    have hfid : fid = obj.location_id := by
      have hg' := hg
      simp only [goodOp] at hg'
      rw [hobj] at hg'
      simpa using hg'
    have hoidptr : (dlookup (dmodify w.objects oid
        (fun o => { o with location_id := tid })) oid).map (fun o => o.location_id) =
        some tid := by
      rw [dlookup_dmodify_self, hobj]
      rfl
    have htrans : ∀ oid' : String, oid' ≠ oid →
        dlookup (dmodify w.objects oid (fun o => { o with location_id := tid })) oid' =
          dlookup w.objects oid' :=
      fun oid' h => dlookup_dmodify_ne _ _ _ h
    have hmemfid : ∀ k loc', dlookup w.locations k = some loc' → oid ∈ loc'.objects →
        k = fid ∧ (decide (fid ≠ "") && dcontains w.locations fid) = true := by
      intro k loc' hlk hm
      obtain ⟨hk0, _, hptr⟩ := hprop k loc' hlk
      have h3 := hptr oid hm
      rw [hobj] at h3
      have h4 : obj.location_id = k := by simpa using h3
      have hkf : k = fid := by rw [hfid, h4]
      subst hkf
      refine ⟨rfl, ?_⟩
      rw [Bool.and_eq_true, decide_eq_true_eq]
      refine ⟨hk0, ?_⟩
      unfold dcontains
      rw [hlk]
      rfl
    try dsimp only
    simp only [modifyLocation, modifyObject]
    try dsimp only
    by_cases hvf : (decide (fid ≠ "") && dcontains w.locations fid) = true
    · rw [if_pos hvf]
      try dsimp only
      rw [Bool.and_eq_true, decide_eq_true_eq] at hvf
      obtain ⟨hfne, hfcont⟩ := hvf
      by_cases hvt : dcontains (dmodify w.locations fid (fun l =>
          if oid ∈ l.objects then { l with objects := l.objects.erase oid } else l)) tid = true
      · rw [if_pos hvt]
        try dsimp only
        rw [dcontains_dmodify] at hvt
        constructor
        · exact dkeysNodup_dmodify _ _ (dkeysNodup_dmodify _ _ hnd)
        · intro k loc' hl
          by_cases hk : k = tid
          · subst hk
            rw [dlookup_dmodify_self] at hl
            by_cases hkf : k = fid
            · subst hkf
              rw [dlookup_dmodify_self] at hl
              cases hv : dlookup w.locations k with
              | none => rw [hv] at hl; cases hl
              | some v =>
                  rw [hv] at hl
                  obtain ⟨hk0, hvnd, hvptr⟩ := hprop k v hv
                  have hlv := Option.some.inj hl
                  try dsimp only at hlv
                  by_cases hmem : oid ∈ v.objects
                  · rw [if_pos hmem] at hlv
                    try dsimp only at hlv
                    subst hlv
                    have hoidnot : oid ∉ v.objects.erase oid := by
                      intro hmm
                      exact ((List.Nodup.mem_erase_iff hvnd).mp hmm).1 rfl
                    refine ⟨hk0, ?_, ?_⟩
                    · simp [List.nodup_append, hvnd.erase oid, hoidnot]
                    · intro oid' hoid'
                      rcases List.mem_append.mp hoid' with hm | hm
                      · obtain ⟨hne2, hmv⟩ := (List.Nodup.mem_erase_iff hvnd).mp hm
                        rw [htrans oid' hne2]
                        exact hvptr oid' hmv
                      · have heq : oid' = oid := by simpa using hm
                        subst heq
                        exact hoidptr
                  · rw [if_neg hmem] at hlv
                    try dsimp only at hlv
                    subst hlv
                    refine ⟨hk0, ?_, ?_⟩
                    · simp [List.nodup_append, hvnd, hmem]
                    · intro oid' hoid'
                      rcases List.mem_append.mp hoid' with hm | hm
                      · have hne2 : oid' ≠ oid := fun hq => hmem (hq ▸ hm)
                        rw [htrans oid' hne2]
                        exact hvptr oid' hm
                      · have heq : oid' = oid := by simpa using hm
                        subst heq
                        exact hoidptr
            · rw [dlookup_dmodify_ne _ _ _ hkf] at hl
              cases hv : dlookup w.locations k with
              | none => rw [hv] at hl; cases hl
              | some v =>
                  rw [hv] at hl
                  obtain ⟨hk0, hvnd, hvptr⟩ := hprop k v hv
                  have hlv := Option.some.inj hl
                  try dsimp only at hlv
                  subst hlv
                  have hmem : oid ∉ v.objects := by
                    intro hmm
                    exact hkf (hmemfid k v hv hmm).1
                  refine ⟨hk0, ?_, ?_⟩
                  · simp [List.nodup_append, hvnd, hmem]
                  · intro oid' hoid'
                    rcases List.mem_append.mp hoid' with hm | hm
                    · have hne2 : oid' ≠ oid := fun hq => hmem (hq ▸ hm)
                      rw [htrans oid' hne2]
                      exact hvptr oid' hm
                    · have heq : oid' = oid := by simpa using hm
                      subst heq
                      exact hoidptr
          · rw [dlookup_dmodify_ne _ _ _ hk] at hl
            by_cases hkf : k = fid
            · subst hkf
              rw [dlookup_dmodify_self] at hl
              cases hv : dlookup w.locations k with
              | none => rw [hv] at hl; cases hl
              | some v =>
                  rw [hv] at hl
                  obtain ⟨hk0, hvnd, hvptr⟩ := hprop k v hv
                  have hlv := Option.some.inj hl
                  try dsimp only at hlv
                  by_cases hmem : oid ∈ v.objects
                  · rw [if_pos hmem] at hlv
                    subst hlv
                    refine ⟨hk0, hvnd.erase oid, ?_⟩
                    intro oid' hoid'
                    obtain ⟨hne2, hmv⟩ := (List.Nodup.mem_erase_iff hvnd).mp hoid'
                    rw [htrans oid' hne2]
                    exact hvptr oid' hmv
                  · rw [if_neg hmem] at hlv
                    subst hlv
                    refine ⟨hk0, hvnd, ?_⟩
                    intro oid' hoid'
                    have hne2 : oid' ≠ oid := fun hq => hmem (hq ▸ hoid')
                    rw [htrans oid' hne2]
                    exact hvptr oid' hoid'
            · rw [dlookup_dmodify_ne _ _ _ hkf] at hl
              obtain ⟨hk0, hvnd, hvptr⟩ := hprop k loc' hl
              refine ⟨hk0, hvnd, ?_⟩
              intro oid' hoid'
              have hne2 : oid' ≠ oid := by
                intro hq
                exact hkf (hmemfid k loc' hl (hq ▸ hoid')).1
              rw [htrans oid' hne2]
              exact hvptr oid' hoid'
      · rw [if_neg hvt]
        try dsimp only
        constructor
        · exact dkeysNodup_dmodify _ _ hnd
        · intro k loc' hl
          by_cases hkf : k = fid
          · subst hkf
            rw [dlookup_dmodify_self] at hl
            cases hv : dlookup w.locations k with
            | none => rw [hv] at hl; cases hl
            | some v =>
                rw [hv] at hl
                obtain ⟨hk0, hvnd, hvptr⟩ := hprop k v hv
                have hlv := Option.some.inj hl
                try dsimp only at hlv
                by_cases hmem : oid ∈ v.objects
                · rw [if_pos hmem] at hlv
                  subst hlv
                  refine ⟨hk0, hvnd.erase oid, ?_⟩
                  intro oid' hoid'
                  obtain ⟨hne2, hmv⟩ := (List.Nodup.mem_erase_iff hvnd).mp hoid'
                  rw [htrans oid' hne2]
                  exact hvptr oid' hmv
                · rw [if_neg hmem] at hlv
                  subst hlv
                  refine ⟨hk0, hvnd, ?_⟩
                  intro oid' hoid'
                  have hne2 : oid' ≠ oid := fun hq => hmem (hq ▸ hoid')
                  rw [htrans oid' hne2]
                  exact hvptr oid' hoid'
          · rw [dlookup_dmodify_ne _ _ _ hkf] at hl
            obtain ⟨hk0, hvnd, hvptr⟩ := hprop k loc' hl
            refine ⟨hk0, hvnd, ?_⟩
            intro oid' hoid'
            have hne2 : oid' ≠ oid := by
              intro hq
              exact hkf (hmemfid k loc' hl (hq ▸ hoid')).1
            rw [htrans oid' hne2]
            exact hvptr oid' hoid'
    · rw [if_neg hvf]
      try dsimp only
      have hnomem : ∀ k loc', dlookup w.locations k = some loc' → oid ∉ loc'.objects := by
        intro k loc' hlk hm
        exact hvf (hmemfid k loc' hlk hm).2
      by_cases hvt : dcontains w.locations tid = true
      · rw [if_pos hvt]
        try dsimp only
        constructor
        · exact dkeysNodup_dmodify _ _ hnd
        · intro k loc' hl
          by_cases hk : k = tid
          · subst hk
            rw [dlookup_dmodify_self] at hl
            cases hv : dlookup w.locations k with
            | none => rw [hv] at hl; cases hl
            | some v =>
                rw [hv] at hl
                obtain ⟨hk0, hvnd, hvptr⟩ := hprop k v hv
                have hlv := Option.some.inj hl
                try dsimp only at hlv
                subst hlv
                have hmem : oid ∉ v.objects := hnomem k v hv
                refine ⟨hk0, ?_, ?_⟩
                · simp [List.nodup_append, hvnd, hmem]
                · intro oid' hoid'
                  rcases List.mem_append.mp hoid' with hm | hm
                  · have hne2 : oid' ≠ oid := fun hq => hmem (hq ▸ hm)
                    rw [htrans oid' hne2]
                    exact hvptr oid' hm
                  · have heq : oid' = oid := by simpa using hm
                    subst heq
                    exact hoidptr
          · rw [dlookup_dmodify_ne _ _ _ hk] at hl
            obtain ⟨hk0, hvnd, hvptr⟩ := hprop k loc' hl
            refine ⟨hk0, hvnd, ?_⟩
            intro oid' hoid'
            have hne2 : oid' ≠ oid := fun hq => hnomem k loc' hl (hq ▸ hoid')
            rw [htrans oid' hne2]
            exact hvptr oid' hoid'
      · rw [if_neg hvt]
        try dsimp only
        constructor
        · exact hnd
        · intro k loc' hl
          obtain ⟨hk0, hvnd, hvptr⟩ := hprop k loc' hl
          refine ⟨hk0, hvnd, ?_⟩
          intro oid' hoid'
          have hne2 : oid' ≠ oid := fun hq => hnomem k loc' hl (hq ▸ hoid')
          rw [htrans oid' hne2]
          exact hvptr oid' hoid'

theorem storeWF_applyOp (w : World) (op : StoreOp) (hwf : StoreWF w)
    (hg : goodOp w op = true) : StoreWF (applyOp w op) := by
  cases op with
  | create oid nm loc st ds mech ist => exact storeWF_create w oid nm loc st ds mech ist hwf
  | destroy oid => exact storeWF_destroy w oid hwf
  | transfer oid fid tid => exact storeWF_transfer_good w oid fid tid hwf hg

theorem storeWF_applyOps (ops : List StoreOp) :
    ∀ w : World, StoreWF w → goodRun w ops = true → StoreWF (applyOps w ops) := by
  induction ops with
  | nil => intro w hwf _; exact hwf
  | cons op rest ih =>
      intro w hwf hg
      unfold goodRun at hg
      rw [Bool.and_eq_true] at hg
      exact ih (applyOp w op) (storeWF_applyOp w op hwf hg.1) hg.2

/-! ## Broadcast and event-queue lemmas -/

theorem enqueueEvent_locations (w : World) (a m : String) :
    (enqueueEvent w a m).locations = w.locations := by
  unfold enqueueEvent
  cases dlookup w.pending_events a <;> rfl

theorem enqueueEvent_objects (w : World) (a m : String) :
    (enqueueEvent w a m).objects = w.objects := by
  unfold enqueueEvent
  cases dlookup w.pending_events a <;> rfl

theorem dlookup_enqueue_self (w : World) (a m : String) :
    dlookup (enqueueEvent w a m).pending_events a =
      some ((dlookup w.pending_events a).getD [] ++ [m]) := by
  unfold enqueueEvent
  cases h : dlookup w.pending_events a with
  | some q =>
      dsimp only
      rw [dlookup_dmodify_self, h]
      rfl
  | none =>
      dsimp only
      rw [dlookup_append, h]
      simp [dlookup]

theorem dlookup_enqueue_ne (w : World) (a m : String) {b : String} (h : b ≠ a) :
    dlookup (enqueueEvent w a m).pending_events b = dlookup w.pending_events b := by
  unfold enqueueEvent
  cases hq : dlookup w.pending_events a with
  | some q =>
      dsimp only
      exact dlookup_dmodify_ne _ _ _ h
  | none =>
      dsimp only
      rw [dlookup_append]
      cases hb : dlookup w.pending_events b with
      | some v => simp
      | none =>
          have hab : ¬ a = b := fun hh => h hh.symm
          simp [dlookup, hab]

theorem dkeysNodup_enqueue (w : World) (a m : String)
    (h : DKeysNodup w.pending_events) : DKeysNodup (enqueueEvent w a m).pending_events := by
  unfold enqueueEvent
  cases hq : dlookup w.pending_events a with
  | some q =>
      dsimp only
      exact dkeysNodup_dmodify _ _ h
  | none =>
      dsimp only
      exact dkeysNodup_append_new h hq

theorem broadcastList_locations (l : List String) :
    ∀ (w : World) (m : String) (ex : Option String),
      (broadcastList w l m ex).locations = w.locations := by
  induction l with
  | nil => intro w m ex; rfl
  | cons a rest ih =>
      intro w m ex
      unfold broadcastList
      dsimp only
      split
      · rw [ih, enqueueEvent_locations]
      · rw [ih]

theorem broadcastList_objects (l : List String) :
    ∀ (w : World) (m : String) (ex : Option String),
      (broadcastList w l m ex).objects = w.objects := by
  induction l with
  | nil => intro w m ex; rfl
  | cons a rest ih =>
      intro w m ex
      unfold broadcastList
      dsimp only
      split
      · rw [ih, enqueueEvent_objects]
      · rw [ih]

theorem dkeysNodup_broadcastList (l : List String) :
    ∀ (w : World) (m : String) (ex : Option String),
      DKeysNodup w.pending_events →
      DKeysNodup (broadcastList w l m ex).pending_events := by
  induction l with
  | nil => intro w m ex h; exact h
  | cons a rest ih =>
      intro w m ex h
      unfold broadcastList
      dsimp only
      split
      · exact ih _ _ _ (dkeysNodup_enqueue w a m h)
      · exact ih _ _ _ h

theorem broadcastList_lookup_notin (l : List String) :
    ∀ (w : World) (m : String) (ex : Option String) (b : String), b ∉ l →
      dlookup (broadcastList w l m ex).pending_events b = dlookup w.pending_events b := by
  induction l with
  | nil => intro w m ex b _; rfl
  | cons a rest ih =>
      intro w m ex b hb
      simp only [List.mem_cons, not_or] at hb
      unfold broadcastList
      dsimp only
      split
      · rw [ih _ _ _ _ hb.2, dlookup_enqueue_ne w a m hb.1]
      · exact ih _ _ _ _ hb.2

theorem broadcastList_lookup_excluded (l : List String) :
    ∀ (w : World) (m e : String),
      dlookup (broadcastList w l m (some e)).pending_events e =
        dlookup w.pending_events e := by
  induction l with
  | nil => intro w m e; rfl
  | cons a rest ih =>
      intro w m e
      unfold broadcastList
      dsimp only
      by_cases ha : a = e
      · rw [if_neg (by simp [ha])]
        exact ih _ _ _
      · rw [if_pos (by simp [ha])]
        rw [ih, dlookup_enqueue_ne w a m (fun hh : e = a => ha hh.symm)]

theorem broadcastList_lookup_mem (l : List String) :
    ∀ (w : World) (m : String) (ex : Option String) (b : String),
      l.Nodup → b ∈ l → ex ≠ some b →
      dlookup (broadcastList w l m ex).pending_events b =
        some ((dlookup w.pending_events b).getD [] ++ [m]) := by
  induction l with
  | nil => intro w m ex b _ hb _; simp at hb
  | cons a rest ih =>
      intro w m ex b hnd hb hex
      rw [List.nodup_cons] at hnd
      unfold broadcastList
      dsimp only
      rcases List.mem_cons.mp hb with hba | hbr
      · subst hba
        split
        · rw [broadcastList_lookup_notin rest _ _ _ _ hnd.1]
          exact dlookup_enqueue_self w b m
        · rename_i hkeep
          exfalso
          cases hxx : ex with
          | none =>
              rw [hxx] at hkeep
              exact hkeep rfl
          | some x =>
              rw [hxx] at hkeep
              have hbx : b = x := by simpa using hkeep
              exact hex (by rw [hxx, hbx])
      · have hba : b ≠ a := fun hh => hnd.1 (hh ▸ hbr)
        split
        · rw [ih _ _ _ _ hnd.2 hbr hex, dlookup_enqueue_ne w a m hba]
        · exact ih _ _ _ _ hnd.2 hbr hex

/-! ## Effect-replay lemmas -/

theorem create_object_agent_locks (w : World) (oid nm loc st ds mech : String)
    (ist : Dict PyPrim) :
    ((create_object w oid nm loc st ds mech ist).1).agent_locks = w.agent_locks := by
  unfold create_object modifyLocation
  split
  · rfl
  · dsimp only
    split <;> rfl

theorem destroy_object_agent_locks (w : World) (oid : String) :
    ((destroy_object w oid).1).agent_locks = w.agent_locks := by
  unfold destroy_object modifyLocation
  split
  · rfl
  · dsimp only
    split <;> rfl

theorem transfer_object_agent_locks (w : World) (oid fid tid : String) :
    ((transfer_object w oid fid tid).1).agent_locks = w.agent_locks := by
  unfold transfer_object modifyLocation modifyObject
  split
  · rfl
  · dsimp only
    split <;> split <;> rfl

theorem update_object_agent_locks (w : World) (oid : String)
    (st ds : Option String) (ist : Option (Dict PyPrim)) :
    ((update_object w oid st ds ist).1).agent_locks = w.agent_locks := by
  unfold update_object modifyObject
  split
  · rfl
  · cases st <;> cases ds <;> cases ist <;> rfl

theorem execute_pending_effect_agent_locks (w : World) (e : Effect) (w' : World)
    (h : execute_pending_effect w e = .ok w') : w'.agent_locks = w.agent_locks := by
  unfold execute_pending_effect at h
  split at h
  · split at h
    · cases h
      exact create_object_agent_locks ..
    · cases h
  · split at h
    · split at h <;> cases h
      all_goals first
        | exact destroy_object_agent_locks ..
        | rfl
    · split at h
      · split at h
        · cases h
          exact transfer_object_agent_locks ..
        · cases h
      · split at h
        · split at h
          · cases h
            exact update_object_agent_locks ..
          · cases h
        · cases h
          rfl

theorem execute_pending_effect_ok_of_fits (w : World) (e : Effect)
    (h : EffectFits e = true) : ∃ w', execute_pending_effect w e = .ok w' := by
  unfold EffectFits at h
  unfold execute_pending_effect
  split at h
  · rename_i h1
    simp only [if_pos h1, h]
    exact ⟨_, rfl⟩
  · rename_i h1
    split at h
    · rename_i h3
      simp only [if_neg h1, if_pos h3, h]
      split <;> exact ⟨_, rfl⟩
    · rename_i h3
      split at h
      · rename_i h4
        simp only [if_neg h1, if_neg h3, if_pos h4, h]
        split <;> exact ⟨_, rfl⟩
      · rename_i h4
        by_cases h2 : e.type = "DestroyObject"
        · simp only [if_neg h1, if_pos h2]
          exact ⟨_, rfl⟩
        · simp only [if_neg h1, if_neg h2, if_neg h3, if_neg h4]
          exact ⟨_, rfl⟩

/-- Shared helper: replaying a batch whose effects all fit the target
signatures never raises, and applies every effect in order exactly once. -/
theorem replay_ok_of_fits (w : World) (effs : List Effect)
    (h : ∀ e ∈ effs, EffectFits e = true) :
    replayEffects w effs = .ok (effs.foldl execEffectTotal w) := by
  induction effs generalizing w with
  | nil => rfl
  | cons e rest ih =>
      obtain ⟨w', hw'⟩ := execute_pending_effect_ok_of_fits w e
        (h e (List.mem_cons_self e rest))
      have htot : execEffectTotal w e = w' := by
        unfold execEffectTotal
        rw [hw']
      simp only [replayEffects, hw', List.foldl_cons, htot]
      exact ih w' (fun x hx => h x (List.mem_cons_of_mem e hx))

theorem replayEffects_agent_locks (effs : List Effect) :
    ∀ (w w' : World), replayEffects w effs = .ok w' →
      w'.agent_locks = w.agent_locks := by
  induction effs with
  | nil =>
      intro w w' h
      cases h
      rfl
  | cons e rest ih =>
      intro w w' h
      unfold replayEffects at h
      cases he : execute_pending_effect w e with
      | ok w₁ =>
          rw [he] at h
          rw [ih w₁ w' h, execute_pending_effect_agent_locks w e w₁ he]
      | error err => rw [he] at h; cases h

/-! ## Visible-equivalence lemmas -/

theorem objVisEq_fields {o1 o2 : WorldObject} (h : objVisEq o1 o2 = true) :
    o1.id = o2.id ∧ o1.name = o2.name ∧ o1.location_id = o2.location_id ∧
    o1.state = o2.state ∧ o1.description = o2.description := by
  unfold objVisEq at h
  simp only [Bool.and_eq_true, decide_eq_true_eq] at h
  tauto

theorem objectsVisEq_lookup {o1 : Dict WorldObject} :
    ∀ {o2 : Dict WorldObject}, objectsVisEq o1 o2 = true → ∀ k,
      ((dlookup o1 k).map fun o => (o.id, o.name, o.location_id, o.state, o.description)) =
      ((dlookup o2 k).map fun o => (o.id, o.name, o.location_id, o.state, o.description)) := by
  induction o1 with
  | nil =>
      intro o2 h k
      cases o2 with
      | nil => rfl
      | cons q t2 => simp [objectsVisEq] at h
  | cons p t1 ih =>
      intro o2 h k
      cases o2 with
      | nil => simp [objectsVisEq] at h
      | cons q t2 =>
          obtain ⟨pk, pv⟩ := p
          obtain ⟨qk, qv⟩ := q
          simp only [objectsVisEq, Bool.and_eq_true, decide_eq_true_eq] at h
          obtain ⟨⟨hk, hov⟩, ht⟩ := h
          obtain ⟨hid, hnm, hloc, hst, hds⟩ := objVisEq_fields hov
          by_cases hkey : pk = k
          · have hqkey : qk = k := hk ▸ hkey
            simp [dlookup, hkey, hqkey, hid, hnm, hloc, hst, hds]
          · have hqkey : ¬ qk = k := hk ▸ hkey
            simp only [dlookup, if_neg hkey, if_neg hqkey]
            exact ih ht k

theorem objectsVisEq_invList {o1 : Dict WorldObject} :
    ∀ {o2 : Dict WorldObject}, objectsVisEq o1 o2 = true → ∀ a : String,
      (o1.filterMap fun p =>
        if p.2.location_id = a then some (p.2.name ++ " (id: " ++ p.2.id ++ ")") else none) =
      (o2.filterMap fun p =>
        if p.2.location_id = a then some (p.2.name ++ " (id: " ++ p.2.id ++ ")") else none) := by
  induction o1 with
  | nil =>
      intro o2 h a
      cases o2 with
      | nil => rfl
      | cons q t2 => simp [objectsVisEq] at h
  | cons p t1 ih =>
      intro o2 h a
      cases o2 with
      | nil => simp [objectsVisEq] at h
      | cons q t2 =>
          obtain ⟨pk, pv⟩ := p
          obtain ⟨qk, qv⟩ := q
          simp only [objectsVisEq, Bool.and_eq_true, decide_eq_true_eq] at h
          obtain ⟨⟨hk, hov⟩, ht⟩ := h
          obtain ⟨hid, hnm, hloc, hst, hds⟩ := objVisEq_fields hov
          simp only [List.filterMap_cons]
          rw [hid, hnm, hloc, ih ht a]

theorem get_agent_inventory_visEq {w1 w2 : World}
    (h : objectsVisEq w1.objects w2.objects = true) (a : String) :
    get_agent_inventory w1 a = get_agent_inventory w2 a :=
  objectsVisEq_invList h a

theorem get_agent_inventory_pe (w : World) (X : Dict (List String)) (a : String) :
    get_agent_inventory { w with pending_events := X } a = get_agent_inventory w a := rfl

theorem objectsInfoList_visEq {w1 w2 : World}
    (h : objectsVisEq w1.objects w2.objects = true) (ids : List String) :
    objectsInfoList w1 ids = objectsInfoList w2 ids := by
  induction ids with
  | nil => rfl
  | cons i rest ih =>
      have hk := objectsVisEq_lookup h i
      unfold objectsInfoList at ih ⊢
      simp only [List.filterMap_cons]
      cases h1 : dlookup w1.objects i with
      | none =>
          cases h2 : dlookup w2.objects i with
          | none => simpa using ih
          | some o2v => rw [h1, h2] at hk; simp at hk
      | some o1v =>
          cases h2 : dlookup w2.objects i with
          | none => rw [h1, h2] at hk; simp at hk
          | some o2v =>
              rw [h1, h2] at hk
              simp at hk
              obtain ⟨hid, hnm, hloc, hst, hds⟩ := hk
              simp only [hnm, hid, hst, hds]
              simpa using ih

/-- When the location is found, a context build pops the agent's queue: the
snapshot carries the queued events and the resulting world has the entry
removed. -/
theorem get_agent_context_data_loc (w : World) (agent location_id : String)
    (loc : Location) (h : dlookup w.locations location_id = some loc) :
    (get_agent_context_data w agent location_id).2.pending_events =
      some ((dlookup w.pending_events agent).getD []) ∧
    (get_agent_context_data w agent location_id).1 =
      { w with pending_events := dremove w.pending_events agent } := by
  unfold get_agent_context_data
  rw [h]
  exact ⟨rfl, rfl⟩

/-! ## Claims -/

/-- C9: the per-agent context snapshot never exposes hidden object fields:
for any two world states that differ only in the `mechanics` and/or
`internal_state` of some objects (all visible fields, presence sets, events
and inventories equal, captured by `visEq`), `get_agent_context_data` returns
identical context records for every agent and location; the snapshot's object
entries are built only from name, id, state and description. -/
theorem c9_context_independent_of_hidden_fields (w1 w2 : World)
    (h : visEq w1 w2 = true) (agent_name location_id : String) :
    (get_agent_context_data w1 agent_name location_id).2 =
      (get_agent_context_data w2 agent_name location_id).2 := by
  unfold visEq at h
  simp only [Bool.and_eq_true, decide_eq_true_eq] at h
  obtain ⟨⟨⟨⟨⟨⟨hloc, hobj⟩, hedges⟩, hpe⟩, hlocks⟩, halocs⟩, hsim⟩ := h
  have htime : get_time_str w1 = get_time_str w2 := by
    unfold get_time_str
    rw [hsim]
  unfold get_agent_context_data
  rw [hloc]
  cases hfind : dlookup w2.locations location_id with
  | none =>
      dsimp only
      rw [htime]
  | some loc =>
      dsimp only [get_pending_events]
      rw [htime, objectsInfoList_visEq hobj loc.objects, hpe,
        get_agent_inventory_pe, get_agent_inventory_pe,
        get_agent_inventory_visEq hobj agent_name]
      rfl

/-- C9 witness: `sampleWorld` and a variant whose lamp has different hidden
mechanics/internal_state are visibly equal, and Ann's context snapshot is
identical in both. -/
theorem c9_witness :
    visEq sampleWorld hiddenVariantWorld = true ∧
    (get_agent_context_data sampleWorld "Ann" "room_a").2 =
      (get_agent_context_data hiddenVariantWorld "Ann" "room_a").2 :=
  ⟨by decide,
   c9_context_independent_of_hidden_fields sampleWorld hiddenVariantWorld
     (by decide) "Ann" "room_a"⟩

/-- C10: in the resolver's `query_entity` tool, object lookup shadows agent
lookup: when `entity_id` names an existing object the result is that object
record even if an agent has the same name; the agent form (location plus
inventory) is returned only when no object has that id; otherwise the
not-found error value is returned.  The embedding of
`WorldEngine._execute_query_entity` is a pure function of the world, matching
the source, which performs no mutation. -/
theorem c10_query_entity_shadowing (w : World) (entity_id : String) :
    (∀ obj, dlookup w.objects entity_id = some obj →
      execute_query_entity w entity_id = .objectRes obj) ∧
    (dlookup w.objects entity_id = none →
      ∀ loc, dlookup w.agent_locations entity_id = some loc →
        execute_query_entity w entity_id =
          .agentRes entity_id loc (get_agent_inventory w entity_id)) ∧
    (dlookup w.objects entity_id = none →
      dlookup w.agent_locations entity_id = none →
      execute_query_entity w entity_id =
        .err ("Entity \x27" ++ entity_id ++ "\x27 not found")) := by
  refine ⟨?_, ?_, ?_⟩
  · intro obj h
    simp [execute_query_entity, h]
  · intro h loc hloc
    simp [execute_query_entity, h, hloc]
  · intro h hloc
    simp [execute_query_entity, h, hloc]

/-- C10 witness: in `shadowWorld` the id "Ann" names both an object and a
placed agent, and the query returns the object record. -/
theorem c10_witness :
    execute_query_entity shadowWorld "Ann" = .objectRes annObj :=
  (c10_query_entity_shadowing shadowWorld "Ann").1 annObj (by decide)

/-- C1 (code bug): finalizing an interaction whose duration is <= 0 with a
non-empty staged effect list does NOT apply the effects or return the message;
the source loops `world.execute_effect(effect)` over the staged effects, and
`World` has no `execute_effect` method, so the first iteration raises
`AttributeError` (swallowed upstream by the tool-dispatch try/except, so the
caller sees a tool failure instead of the narrative result). -/
theorem c1_finalize_immediate_raises (message : String) (duration : Int)
    (td : Option String) (effs : List Effect) (w : World) (agent_name : String)
    (hd : duration ≤ 0) (hne : effs ≠ []) :
    finalize_interaction message duration td effs w agent_name =
      .error .attributeError := by
  unfold finalize_interaction
  rw [if_neg (by omega)]
  cases effs with
  | nil => exact absurd rfl hne
  | cons e rest => rfl

/-- C1 witness: the spec scenario "turn on lamp" with duration 0 and the
staged `update_object(lamp, state="on")` raises instead of applying. -/
theorem c1_witness :
    finalize_interaction "You turn on the lamp." 0 none [lampOnEffect]
      sampleWorld "Ann" = .error .attributeError :=
  c1_finalize_immediate_raises "You turn on the lamp." 0 none [lampOnEffect]
    sampleWorld "Ann" (by decide) (by decide)

/-- C3: for an agent currently at loaded location X moving to loaded location
Y, `move_agent` succeeds iff the world graph has an edge between X and Y; on
success the agent is removed from X's presence list exactly once and appended
to Y's exactly once (counts drop/rise by one) and every other location is
untouched; on failure the world, and in particular both presence lists, is
completely unchanged. -/
theorem c3_move_agent (w : World) (a X Y : String) (loc locY : Location)
    (hx : dlookup w.agent_locations a = some X)
    (hX : dlookup w.locations X = some loc)
    (hY : dlookup w.locations Y = some locY)
    (hmem : a ∈ loc.agents_present)
    (hne : X ≠ Y) :
    ((move_agent w a Y).2 = true ↔ hasEdge w X Y = true) ∧
    (hasEdge w X Y = true →
      dlookup ((move_agent w a Y).1).locations X =
        some { loc with agents_present := loc.agents_present.erase a } ∧
      dlookup ((move_agent w a Y).1).locations Y =
        some { locY with agents_present := locY.agents_present ++ [a] } ∧
      dlookup ((move_agent w a Y).1).agent_locations a = some Y ∧
      (loc.agents_present.erase a).count a = loc.agents_present.count a - 1 ∧
      (locY.agents_present ++ [a]).count a = locY.agents_present.count a + 1 ∧
      (∀ Z, Z ≠ X → Z ≠ Y →
        dlookup ((move_agent w a Y).1).locations Z = dlookup w.locations Z)) ∧
    (hasEdge w X Y = false → (move_agent w a Y).1 = w ∧ (move_agent w a Y).2 = false) := by
  have hYne : Y ≠ X := fun hh => hne hh.symm
  cases hedge : hasEdge w X Y with
  | false =>
      have hmove : move_agent w a Y = (w, false) := by
        unfold move_agent
        rw [hx]
        dsimp only
        rw [hedge]
        simp
      refine ⟨?_, ?_, ?_⟩
      · simp [hmove]
      · intro h
        exact Bool.noConfusion h
      · intro _
        rw [hmove]
        exact ⟨rfl, rfl⟩
  | true =>
      have hmove : move_agent w a Y =
          ({ modifyLocation (modifyLocation w X
                (fun l => { l with agents_present := l.agents_present.erase a })) Y
                (fun l => { l with agents_present := l.agents_present ++ [a] }) with
              agent_locations := dinsert w.agent_locations a Y }, true) := by
        unfold move_agent
        rw [hx]
        dsimp only
        rw [hedge]
        simp only [Bool.true_eq_false, if_false]
        rw [hX]
        dsimp only
        rw [if_pos hmem]
        simp only [modifyLocation]
        rw [dlookup_dmodify_ne _ _ _ hYne, hY]
      refine ⟨?_, ?_, ?_⟩
      · simp [hmove]
      · intro _
        refine ⟨?_, ?_, ?_, ?_, ?_, ?_⟩
        · rw [hmove]
          simp only [modifyLocation]
          rw [dlookup_dmodify_ne _ _ _ hne, dlookup_dmodify_self, hX]
          rfl
        · rw [hmove]
          simp only [modifyLocation]
          rw [dlookup_dmodify_self, dlookup_dmodify_ne _ _ _ hYne, hY]
          rfl
        · rw [hmove]
          exact dlookup_dinsert_self ..
        · exact List.count_erase_self a loc.agents_present
        · simp
        · intro Z hZX hZY
          rw [hmove]
          simp only [modifyLocation]
          rw [dlookup_dmodify_ne _ _ _ hZY, dlookup_dmodify_ne _ _ _ hZX]
      · intro h
        exact Bool.noConfusion h

/-- C3 witness: Ann, at room A, successfully moves to the connected room B in
the scenario world. -/
theorem c3_witness : (move_agent sampleWorld "Ann" "room_b").2 = true := by
  have h := (c3_move_agent sampleWorld "Ann" "room_a" "room_b" roomA roomB
    (by decide) (by decide) (by decide) (by decide) (by decide)).1
  exact h.mpr (by decide)

/-- C6: calling `set_agent_lock` while a lock for that agent is already active
replaces the prior lock entirely: afterwards the agent's single lock entry
carries exactly the new `until_time` (now + duration), reason, completion
message and pending effects (so the prior lock's pending effects can never be
replayed); other agents' locks are untouched and key uniqueness (at most one
lock per agent) is preserved. -/
theorem c6_set_lock_overwrites (w : World) (a : String) (d : Int) (r cm : String)
    (effs : List Effect) (hcm : cm ≠ "") :
    dlookup (set_agent_lock w a d r (some cm) (some effs)).agent_locks a =
      some { until_time := w.sim_time + d, reason := r, completion_message := cm,
             pending_effects := effs } ∧
    (∀ b, b ≠ a →
      dlookup (set_agent_lock w a d r (some cm) (some effs)).agent_locks b =
        dlookup w.agent_locks b) ∧
    (DKeysNodup w.agent_locks →
      DKeysNodup (set_agent_lock w a d r (some cm) (some effs)).agent_locks) := by
  refine ⟨?_, ?_, ?_⟩
  · simp [set_agent_lock, hcm, dlookup_dinsert_self]
  · intro b hb
    simp [set_agent_lock, hcm, dlookup_dinsert_ne _ _ _ hb]
  · intro h
    exact dkeysNodup_dinsert _ _ h

/-- C6 witness: re-locking Ann (already locked with a pending destroy effect)
yields exactly the new lock, with the prior pending effects gone. -/
theorem c6_witness :
    dlookup (set_agent_lock lockedWorld "Ann" 30 "cooking" (some "Dinner is ready.")
        (some [lampOnEffect])).agent_locks "Ann" =
      some { until_time := 510, reason := "cooking",
             completion_message := "Dinner is ready.",
             pending_effects := [lampOnEffect] } := by
  have h := (c6_set_lock_overwrites lockedWorld "Ann" 30 "cooking" "Dinner is ready."
    [lampOnEffect] (by decide)).1
  simpa using h

/-- C7: broadcasting message m to location L excluding agent e appends m to
the queue of every agent present at L other than e (and of no other agent; e
never receives m); the next context build for such an agent (their location
found) returns m exactly once and empties the queue, so a second context
build delivers no events. -/
theorem c7_broadcast_delivery (w : World) (L m e a : String) (loc : Location)
    (hL : dlookup w.locations L = some loc)
    (hnodup : loc.agents_present.Nodup)
    (hnodupq : DKeysNodup w.pending_events)
    (ha : a ∈ loc.agents_present)
    (hae : a ≠ e)
    (hmq : m ∉ (dlookup w.pending_events a).getD [])
    (hmqe : m ∉ (dlookup w.pending_events e).getD []) :
    (∀ b, b ∈ loc.agents_present → b ≠ e →
      dlookup (broadcast_to_location w L m (some e)).pending_events b =
        some ((dlookup w.pending_events b).getD [] ++ [m])) ∧
    (∀ b, b ∉ loc.agents_present →
      dlookup (broadcast_to_location w L m (some e)).pending_events b =
        dlookup w.pending_events b) ∧
    dlookup (broadcast_to_location w L m (some e)).pending_events e =
      dlookup w.pending_events e ∧
    m ∉ (dlookup (broadcast_to_location w L m (some e)).pending_events e).getD [] ∧
    (get_agent_context_data (broadcast_to_location w L m (some e)) a L).2.pending_events =
      some ((dlookup w.pending_events a).getD [] ++ [m]) ∧
    ((dlookup w.pending_events a).getD [] ++ [m]).count m = 1 ∧
    dlookup ((get_agent_context_data (broadcast_to_location w L m (some e)) a L).1).pending_events
      a = none ∧
    (get_agent_context_data
        ((get_agent_context_data (broadcast_to_location w L m (some e)) a L).1) a
        L).2.pending_events = some [] := by
  have hw1 : broadcast_to_location w L m (some e) =
      broadcastList w loc.agents_present m (some e) := by
    unfold broadcast_to_location
    rw [hL]
  have hdeliver : ∀ b, b ∈ loc.agents_present → b ≠ e →
      dlookup (broadcast_to_location w L m (some e)).pending_events b =
        some ((dlookup w.pending_events b).getD [] ++ [m]) := by
    intro b hb hbe
    rw [hw1]
    exact broadcastList_lookup_mem loc.agents_present w m (some e) b hnodup hb
      (fun hh => hbe (Option.some.inj hh).symm)
  have hL1 : dlookup (broadcast_to_location w L m (some e)).locations L = some loc := by
    rw [hw1, broadcastList_locations]
    exact hL
  have h1a := hdeliver a ha hae
  have hctx := get_agent_context_data_loc (broadcast_to_location w L m (some e)) a L loc hL1
  have hnodupq1 : DKeysNodup (broadcast_to_location w L m (some e)).pending_events := by
    rw [hw1]
    exact dkeysNodup_broadcastList loc.agents_present w m (some e) hnodupq
  have hpop : dlookup ((get_agent_context_data (broadcast_to_location w L m (some e))
      a L).1).pending_events a = none := by
    rw [hctx.2]
    exact dlookup_dremove_self hnodupq1
  have hL2 : dlookup ((get_agent_context_data (broadcast_to_location w L m (some e))
      a L).1).locations L = some loc := by
    rw [hctx.2]
    exact hL1
  refine ⟨hdeliver, ?_, ?_, ?_, ?_, ?_, hpop, ?_⟩
  · intro b hb
    rw [hw1]
    exact broadcastList_lookup_notin loc.agents_present w m (some e) b hb
  · rw [hw1]
    exact broadcastList_lookup_excluded loc.agents_present w m e
  · rw [hw1, broadcastList_lookup_excluded]
    exact hmqe
  · rw [hctx.1, h1a]
    rfl
  · have hz := List.count_eq_zero_of_not_mem hmq
    simp [List.count_append, hz]
  · rw [(get_agent_context_data_loc _ a L loc hL2).1, hpop]
    rfl

/-- C7 witness: broadcasting "hello" to room A excluding Bob delivers it to
Ann's queue exactly once. -/
theorem c7_witness :
    dlookup (broadcast_to_location sampleWorld "room_a" "hello"
      (some "Bob")).pending_events "Ann" = some ["hello"] := by
  have h := (c7_broadcast_delivery sampleWorld "room_a" "hello" "Bob" "Ann" roomA
    (by decide) (by decide) (by decide) (by decide) (by decide) (by decide)
    (by decide)).1 "Ann" (by decide) (by decide)
  simpa using h

/-- C8: for an existing object, `update_object` with an `internal_state` patch
merges the patch key-by-key into the existing hidden state (patched keys are
overwritten, unpatched keys keep their old values) rather than replacing the
mapping, and leaves the object's id, name, location_id, mechanics, and any
field passed as `None` unchanged. -/
theorem c8_update_merges_internal_state (w : World) (oid : String)
    (obj : WorldObject) (st ds : Option String) (patch : Dict PyPrim)
    (hobj : dlookup w.objects oid = some obj) (hnd : DKeysNodup patch) :
    ∃ obj', dlookup ((update_object w oid st ds (some patch)).1).objects oid = some obj' ∧
      obj'.id = obj.id ∧ obj'.name = obj.name ∧
      obj'.location_id = obj.location_id ∧ obj'.mechanics = obj.mechanics ∧
      (st = none → obj'.state = obj.state) ∧
      (ds = none → obj'.description = obj.description) ∧
      (∀ k v, dlookup patch k = some v → dlookup obj'.internal_state k = some v) ∧
      (∀ k, dlookup patch k = none →
        dlookup obj'.internal_state k = dlookup obj.internal_state k) := by
  have hmerge := dictUpdate_lookup hnd obj.internal_state
  cases st with
  | none =>
      cases ds with
      | none =>
          refine ⟨{ obj with internal_state := dictUpdate obj.internal_state patch },
            ?_, rfl, rfl, rfl, rfl, fun _ => rfl, fun _ => rfl, ?_, ?_⟩
          · simp [update_object, hobj, modifyObject, dlookup_dmodify_self]
          · intro k v hk
            rw [hmerge k, hk]
          · intro k hk
            rw [hmerge k, hk]
      | some dd =>
          refine ⟨{ obj with description := dd, internal_state := dictUpdate obj.internal_state patch }, ?_, rfl, rfl, rfl, rfl, fun _ => rfl, fun h => Option.noConfusion h, ?_, ?_⟩
          · simp [update_object, hobj, modifyObject, dlookup_dmodify_self]
          · intro k v hk
            rw [hmerge k, hk]
          · intro k hk
            rw [hmerge k, hk]
  | some s =>
      cases ds with
      | none =>
          refine ⟨{ obj with state := s, internal_state := dictUpdate obj.internal_state patch }, ?_, rfl, rfl, rfl, rfl, fun h => Option.noConfusion h, fun _ => rfl, ?_, ?_⟩
          · simp [update_object, hobj, modifyObject, dlookup_dmodify_self]
          · intro k v hk
            rw [hmerge k, hk]
          · intro k hk
            rw [hmerge k, hk]
      | some dd =>
          refine ⟨{ obj with state := s, description := dd, internal_state := dictUpdate obj.internal_state patch }, ?_, rfl, rfl, rfl, rfl, fun h => Option.noConfusion h, fun h => Option.noConfusion h, ?_, ?_⟩
          · simp [update_object, hobj, modifyObject, dlookup_dmodify_self]
          · intro k v hk
            rw [hmerge k, hk]
          · intro k hk
            rw [hmerge k, hk]

/-- C2: after locking agent `a` at time `T` with duration `D` (so
`until_time = T + D`), and with no intervening re-lock: every check while
`now < until_time` returns the Active result with the reason and mutates
nothing; the first check with `now >= until_time` replays the pending effects
exactly once (in order), removes the lock, and returns the Expired result
carrying the completion message; once the lock entry is gone every check
returns None.  (The pending effects are assumed to fit their target
operations, the well-formed case staged by the resolver.) -/
theorem c2_lock_lifecycle (w : World) (a : String) (D : Int) (r cm : String)
    (effs : List Effect) (hcm : cm ≠ "") (hfits : ∀ e ∈ effs, EffectFits e = true) :
    dlookup (set_agent_lock w a D r (some cm) (some effs)).agent_locks a =
      some { until_time := w.sim_time + D, reason := r, completion_message := cm,
             pending_effects := effs } ∧
    (∀ w', dlookup w'.agent_locks a =
        some { until_time := w.sim_time + D, reason := r, completion_message := cm,
               pending_effects := effs } →
      w'.sim_time < w.sim_time + D →
      check_agent_lock w' a = .ok (w', some (.active r))) ∧
    (∀ w', dlookup w'.agent_locks a =
        some { until_time := w.sim_time + D, reason := r, completion_message := cm,
               pending_effects := effs } →
      DKeysNodup w'.agent_locks →
      w.sim_time + D ≤ w'.sim_time →
      check_agent_lock w' a =
        .ok ({ effs.foldl execEffectTotal w' with
                agent_locks := dremove (effs.foldl execEffectTotal w').agent_locks a },
             some (.expired cm)) ∧
      dlookup (dremove (effs.foldl execEffectTotal w').agent_locks a) a = none) ∧
    (∀ w', dlookup w'.agent_locks a = none →
      check_agent_lock w' a = .ok (w', none)) := by
  refine ⟨?_, ?_, ?_, ?_⟩
  · simp [set_agent_lock, hcm, dlookup_dinsert_self]
  · intro w' hl hlt
    unfold check_agent_lock
    rw [hl]
    dsimp only
    rw [if_neg (not_le.mpr hlt)]
  · intro w' hl hnd hle
    have hreplay := replay_ok_of_fits w' effs hfits
    have hframe := replayEffects_agent_locks effs w' (effs.foldl execEffectTotal w') hreplay
    constructor
    · unfold check_agent_lock
      rw [hl]
      dsimp only
      rw [if_pos hle, hreplay]
    · rw [hframe]
      exact dlookup_dremove_self hnd
  · intro w' hl
    unfold check_agent_lock
    rw [hl]

/-- C2 witness: Ann locked at 8:00 for 10 minutes with the staged lamp
update; the check at 8:10 replays the effect, removes the lock, and returns
the completion message. -/
theorem c2_witness :
    check_agent_lock c2World "Ann" =
      .ok ({ [lampOnEffect].foldl execEffectTotal c2World with
              agent_locks :=
                dremove ([lampOnEffect].foldl execEffectTotal c2World).agent_locks "Ann" },
           some (.expired "Repair complete.")) ∧
    dlookup (dremove ([lampOnEffect].foldl execEffectTotal c2World).agent_locks "Ann")
      "Ann" = none :=
  ((c2_lock_lifecycle sampleWorld "Ann" 10 "repairing" "Repair complete."
      [lampOnEffect] (by decide) (by decide)).2.2.1) c2World (by decide) (by decide)
    (by decide)

/-- C4 counterexample: from a fully consistent start (the orb sits only in
room A, consistent with its `location_id`), a single `transfer_object` whose
`from_id` does not match the orb's current owner leaves the orb listed in the
objects lists of TWO locations (it is removed only from the given `from_id`,
room B, where it is not, and appended to the destination), refuting
conservation under arbitrary arguments. -/
theorem c4_counterexample :
    conservationB c4World = true ∧
    storeWFB c4World = true ∧
    conservationB (applyOps c4World [.transfer "o" "room_b" "room_b"]) = false := by
  decide

/-- C4 (amended): starting from a consistent store (each listed object id
exists and its `location_id` names the listing location, lists are
duplicate-free, location ids are unique and non-empty), after any sequence of
create/destroy/transfer calls in which every transfer's `from_id` names the
object's current owner at the time of the call, every existing object id
occurs in the objects list of at most one location, at most once. -/
theorem c4_conservation_of_well_sourced_transfers (w : World) (ops : List StoreOp)
    (hwf : StoreWF w) (hg : goodRun w ops = true) :
    conservationB (applyOps w ops) = true :=
  conservationB_of_storeWF (storeWF_applyOps ops w hwf hg)

/-- C4 witness: a create, a well-sourced transfer, and a destroy starting
from the consistent two-room world keep conservation. -/
theorem c4_witness :
    conservationB (applyOps c4World
      [.create "p" "Pearl" "room_b" "normal" "" "" [],
       .transfer "o" "room_a" "room_b",
       .destroy "p"]) = true :=
  c4_conservation_of_well_sourced_transfers c4World
    [.create "p" "Pearl" "room_b" "normal" "" "" [],
     .transfer "o" "room_a" "room_b",
     .destroy "p"]
    (storeWF_of_B (by decide)) (by decide)

/-- C5 counterexample: replaying a batch of deferred effects CAN raise to the
caller of `check_agent_lock` and halt the batch: Bob's expired lock stages a
`TransferObject` effect whose args lack the required `from_id`/`to_id`
keywords, so `transfer_object(**args)` raises TypeError, the exception
propagates out of `check_agent_lock`, and the well-formed second effect is
never attempted. -/
theorem c5_counterexample :
    check_agent_lock c5World "Bob" = .error .typeError := by decide

/-- C5 (amended): replay is best-effort only for effects whose args fit the
target EntityStore operation: for every such batch, replay never raises, every
effect is attempted in order exactly once, and a failure signalled by a
`False` return (for example a `CreateObject` whose id already exists) is
swallowed without halting the remaining effects. -/
theorem c5_replay_best_effort (w : World) (effs : List Effect)
    (h : ∀ e ∈ effs, EffectFits e = true) :
    replayEffects w effs = .ok (effs.foldl execEffectTotal w) :=
  replay_ok_of_fits w effs h

/-- C5 witness: a duplicate-id create (returns a failure signal) followed by
the lamp update: replay succeeds, and the later effect was still applied (the
lamp ends up "on"). -/
theorem c5_witness :
    replayEffects sampleWorld [dupCreateEffect, lampOnEffect] =
      .ok ([dupCreateEffect, lampOnEffect].foldl execEffectTotal sampleWorld) ∧
    (dlookup ([dupCreateEffect, lampOnEffect].foldl execEffectTotal
        sampleWorld).objects "lamp").map (fun o => o.state) = some "on" :=
  ⟨c5_replay_best_effort sampleWorld [dupCreateEffect, lampOnEffect] (by decide),
   by decide⟩

/-- C8 witness: patching the lamp's hidden state with {"on": true} keeps the
visible fields and merges the key into the existing hidden state. -/
theorem c8_witness :
    ∃ obj', dlookup ((update_object sampleWorld "lamp" none none
        (some [("on", .bool true)])).1).objects "lamp" = some obj' ∧
      obj'.id = lampObj.id ∧ obj'.name = lampObj.name ∧
      obj'.location_id = lampObj.location_id ∧ obj'.mechanics = lampObj.mechanics ∧
      (none = (none : Option String) → obj'.state = lampObj.state) ∧
      (none = (none : Option String) → obj'.description = lampObj.description) ∧
      (∀ k v, dlookup [("on", PyPrim.bool true)] k = some v →
        dlookup obj'.internal_state k = some v) ∧
      (∀ k, dlookup [("on", PyPrim.bool true)] k = none →
        dlookup obj'.internal_state k = dlookup lampObj.internal_state k) :=
  c8_update_merges_internal_state sampleWorld "lamp" lampObj none none
    [("on", .bool true)] (by decide) (by decide)

end Agentia
